import Mathlib

/-!
Verification development for the SiloNeT offline localization repository.

The repository contains two interchangeable localization strategies:
* `src/student_algorithms/trilateration_offline_localization.py`:
  iterative trilateration (`circle_intersection`, `trilaterate`,
  `locate_other_vehicles`);
* `src/student_algorithms/beliefPropagationLocalization.py`:
  grid belief propagation (`belief_propagation`).

Python floats are idealized as real numbers.  External numeric library
routines are passed as parameters: `sq : ℝ → ℝ` models `numpy.sqrt`
(so `sq (x^2 + y^2)` models `np.linalg.norm` of a 2-vector), and
`pdf : ℝ → ℝ → ℝ → ℝ` models `scipy.stats.norm.pdf (x, loc, scale)`.
The Python program is the instantiation at `sq := Real.sqrt`,
`pdf := gaussianPdf`.  Python dictionaries (which preserve insertion
order) are embedded as association lists with new entries appended at
the end, and the stable Python `sorted` as a stable insertion sort.
-/

namespace SiloNet

noncomputable section

/-- A 2-D point, i.e. the Python tuple / `np.array` of two floats. -/
abbrev Pt := ℝ × ℝ

/-- Lookup in an association list, mirroring Python `dict[...]` /
`dict.get(...)` (keys are unique in a Python dict, so first match
wins). -/
def aget {κ β : Type} [DecidableEq κ] : List (κ × β) → κ → Option β
  | [], _ => none
  | (k, v) :: rest, key => if k = key then some v else aget rest key

/-- Key membership test, mirroring Python `key in dict`. -/
def hasKey {κ β : Type} [DecidableEq κ] (l : List (κ × β)) (k : κ) : Bool :=
  (aget l k).isSome

/-- Key list of an association list, mirroring `dict.keys()`
(insertion order). -/
def keysOf {κ β : Type} (l : List (κ × β)) : List κ := l.map (·.1)

/-- Deduplicate keeping the first occurrence of each element.  Used to
embed the `set(...)` comprehension that collects the nodes appearing in
the distance map. -/
def dedupFirst (l : List Nat) : List Nat :=
  l.foldl (fun acc x => if x ∈ acc then acc else acc ++ [x]) []

/-- All node ids appearing in the distance map:
`set(node for edge in distances for node in edge)`. -/
def nodesIn (D : List ((Nat × Nat) × ℝ)) : List Nat :=
  dedupFirst (D.foldr (fun e acc => e.1.1 :: e.1.2 :: acc) [])

/-- `unknown_nodes`: nodes referenced by the distance map that are not
keys of `known_positions`.  Both solvers compute this the same way. -/
def unknownNodes (D : List ((Nat × Nat) × ℝ))
    (known : List (Nat × Pt)) : List Nat :=
  (nodesIn D).filter (fun n => !(hasKey known n))

/-! ### Geometry: `circle_intersection` and `trilaterate` -/

/-- `OfflineLocalization.circle_intersection` from
`trilateration_offline_localization.py`:

```
d = np.linalg.norm(p1 - p2)
if d > r1 + r2 or d < abs(r1 - r2) or d == 0:
    return None, None
a = (r1**2 - r2**2 + d**2) / (2 * d)
h = np.sqrt(max(0, r1**2 - a**2))
mid = p1 + a * (p2 - p1) / d
offset = h * np.array([- (p2[1] - p1[1]) / d, (p2[0] - p1[0]) / d])
return mid + offset, mid - offset
```

`sq` models `np.sqrt`; the `Option` result models the `(None, None)`
case versus the pair of candidate intersection points. -/
def circle_intersection (sq : ℝ → ℝ) (p1 : Pt) (r1 : ℝ) (p2 : Pt)
    (r2 : ℝ) : Option (Pt × Pt) :=
  let d := sq ((p1.1 - p2.1) ^ 2 + (p1.2 - p2.2) ^ 2)
  if d > r1 + r2 ∨ d < |r1 - r2| ∨ d = 0 then none
  else
    let a := (r1 ^ 2 - r2 ^ 2 + d ^ 2) / (2 * d)
    let h := sq (max 0 (r1 ^ 2 - a ^ 2))
    let mid : Pt := (p1.1 + a * (p2.1 - p1.1) / d, p1.2 + a * (p2.2 - p1.2) / d)
    let off : Pt := (h * (-(p2.2 - p1.2) / d), h * ((p2.1 - p1.1) / d))
    some ((mid.1 + off.1, mid.2 + off.2), (mid.1 - off.1, mid.2 - off.2))

/-- `np.isclose(a, b, atol=tol)` with the numpy default relative
tolerance `rtol = 1e-05`: `|a - b| <= atol + rtol * |b|`. -/
def npIsClose (atol a b : ℝ) : Prop := |a - b| ≤ atol + (1 / 100000) * |b|

instance (atol a b : ℝ) : Decidable (npIsClose atol a b) := by
  unfold npIsClose; infer_instance

/-- `OfflineLocalization.trilaterate` from
`trilateration_offline_localization.py`:

```
p3a, p3b = self.circle_intersection(p1, d1, p2, d2)
if p3a is None or p3b is None: return None
d3a = np.linalg.norm(p4 - p3a)
d3b = np.linalg.norm(p4 - p3b)
if np.isclose(d3a, d4, atol=self.tolerance): return tuple(p3a)
elif np.isclose(d3b, d4, atol=self.tolerance): return tuple(p3b)
else: return tuple((p3a + p3b) / 2)
```
-/
def trilaterate (sq : ℝ → ℝ) (tol : ℝ) (p1 p2 p4 : Pt)
    (d1 d2 d4 : ℝ) : Option Pt :=
  match circle_intersection sq p1 d1 p2 d2 with
  | none => none
  | some (p3a, p3b) =>
    let d3a := sq ((p4.1 - p3a.1) ^ 2 + (p4.2 - p3a.2) ^ 2)
    let d3b := sq ((p4.1 - p3b.1) ^ 2 + (p4.2 - p3b.2) ^ 2)
    if npIsClose tol d3a d4 then some p3a
    else if npIsClose tol d3b d4 then some p3b
    else some ((p3a.1 + p3b.1) / 2, (p3a.2 + p3b.2) / 2)

/-! ### The stable Python `sorted(..., key=lambda x: x[1])` -/

/-- Insert an element into an already sorted list, after every element
whose key is `≤` its own key.  Folding this over the input from the
left yields exactly the nondecreasing stable permutation that the Python
`sorted(..., key=lambda x: x[1])` call produces. -/
def insOrdered : List (Nat × ℝ) → (Nat × ℝ) → List (Nat × ℝ)
  | [], x => [x]
  | y :: ys, x => if y.2 ≤ x.2 then y :: insOrdered ys x else x :: y :: ys

/-- Stable sort by the second component (the distance), embedding
`sorted(neighbor_list, key=lambda x: x[1])`. -/
def pySortByDist (l : List (Nat × ℝ)) : List (Nat × ℝ) :=
  l.foldl insOrdered []

/-! ### `locate_other_vehicles` (iterative trilateration solver) -/

/-- The mutable state of one pass of the main loop of
`locate_other_vehicles`: the working `known_positions` and
`estimated_positions` dicts, the `progress_made` flag, and the
`pending_nodes` list. -/
structure PassSt where
  known : List (Nat × Pt)
  est : List (Nat × Pt)
  prog : Bool
  pend : List Nat

/-- The neighbor list comprehension of `locate_other_vehicles`:

```
[(k, distances.get((id2, k), distances.get((k, id2))))
 for k in known_positions.keys()
 if (id2, k) in distances or (k, id2) in distances]
```
-/
def neighborList (D : List ((Nat × Nat) × ℝ)) (known : List (Nat × Pt))
    (id2 : Nat) : List (Nat × ℝ) :=
  (keysOf known).filterMap (fun k =>
    match aget D (id2, k) with
    | some v => some (k, v)
    | none =>
      match aget D (k, id2) with
      | some v => some (k, v)
      | none => none)

/-- `if estimated_p is not None:` — on success append the estimate to
both `estimated_positions` and the working `known_positions` (the same
dict object the caller passed in) and set `progress_made = True`; on
`None` do nothing. -/
def applyEst (s : PassSt) (id2 : Nat) : Option Pt → PassSt
  | some p =>
    { s with known := s.known ++ [(id2, p)], est := s.est ++ [(id2, p)],
             prog := true }
  | none => s

/-- Dispatch on the sorted neighbor list: fewer than three known
neighbors appends the node to `pending_nodes`; otherwise the three
closest known neighbors `neighbors[:3]` are fed to `trilaterate`. -/
def pickTri (sq : ℝ → ℝ) (tol : ℝ) (s : PassSt) (id2 : Nat) :
    List (Nat × ℝ) → PassSt
  | (p1k, d1) :: (p2k, d2) :: (p4k, d4) :: _ =>
    applyEst s id2
      (trilaterate sq tol ((aget s.known p1k).getD (0, 0))
        ((aget s.known p2k).getD (0, 0)) ((aget s.known p4k).getD (0, 0))
        d1 d2 d4)
  | _ => { s with pend := s.pend ++ [id2] }

/-- The body of `for (id1, id2), d in distances.items():` inside one
pass of the main loop of `locate_other_vehicles` (the own value
`d` of the edge is unused by the body).  `D` is the full distance dict, used for
neighbor lookups. -/
def stepEdge (sq : ℝ → ℝ) (tol : ℝ) (D : List ((Nat × Nat) × ℝ))
    (s : PassSt) (id1 id2 : Nat) : PassSt :=
  if hasKey s.known id1 && !(hasKey s.known id2) then
    pickTri sq tol s id2 (pySortByDist (neighborList D s.known id2))
  else s

/-- One full pass of the main loop: fold the edge body over
`distances.items()`, starting with a cleared `progress_made` flag and
empty `pending_nodes`. -/
def onePass (sq : ℝ → ℝ) (tol : ℝ) (D : List ((Nat × Nat) × ℝ))
    (known est : List (Nat × Pt)) : PassSt :=
  D.foldl (fun s e => stepEdge sq tol D s e.1.1 e.1.2) ⟨known, est, false, []⟩

/-- The `while len(estimated_positions) < len(unknown_nodes):` loop of
`locate_other_vehicles`, with the pass counter `count` mirroring
`iteration_count` and explicit fuel (the source loop executes at most
`max_iterations + 1` passes, see `mainLoopC_stable`).  Returns the
final `(known_positions, estimated_positions)` pair together with the
number of passes executed.  After each pass the source increments the
counter, breaks if it exceeds `maxIt`, keeps looping if no progress
was made but nodes are pending, and breaks if no progress was made and
nothing is pending. -/
def mainLoopC (sq : ℝ → ℝ) (tol : ℝ) (D : List ((Nat × Nat) × ℝ))
    (uc maxIt : Nat) :
    Nat → Nat → List (Nat × Pt) → List (Nat × Pt) →
    (List (Nat × Pt) × List (Nat × Pt)) × Nat
  | 0, _, known, est => ((known, est), 0)
  | fuel + 1, count, known, est =>
    if est.length < uc then
      let s := onePass sq tol D known est
      if maxIt < count + 1 then ((s.known, s.est), 1)
      else if !s.prog && s.pend.isEmpty then ((s.known, s.est), 1)
      else
        let r := mainLoopC sq tol D uc maxIt fuel (count + 1) s.known s.est
        (r.1, r.2 + 1)
    else ((known, est), 0)

/-- `max_iterations = len(unknown_nodes) * len(unknown_nodes)`. -/
def maxIterOf (D : List ((Nat × Nat) × ℝ)) (known : List (Nat × Pt)) : Nat :=
  (unknownNodes D known).length * (unknownNodes D known).length

/-- `OfflineLocalization.locate_other_vehicles`: run the main loop
from the `known_positions` of the caller and an empty
`estimated_positions`, returning the final pair
`(known_positions, estimated_positions)`.  The fuel
`max_iterations + 1` is exact: the source loop never executes more
passes than that (`mainLoopC_stable`). -/
def locatePair (sq : ℝ → ℝ) (tol : ℝ) (known : List (Nat × Pt))
    (D : List ((Nat × Nat) × ℝ)) :
    (List (Nat × Pt) × List (Nat × Pt)) × Nat :=
  mainLoopC sq tol D (unknownNodes D known).length (maxIterOf D known)
    (maxIterOf D known + 1) 0 known []

/-- The returned `estimated_positions`. -/
def locate (sq : ℝ → ℝ) (tol : ℝ) (known : List (Nat × Pt))
    (D : List ((Nat × Nat) × ℝ)) : List (Nat × Pt) :=
  (locatePair sq tol known D).1.2

/-- The `known_positions` dict of the caller at return time (the source
mutates the argument in place). -/
def locateKnownFinal (sq : ℝ → ℝ) (tol : ℝ) (known : List (Nat × Pt))
    (D : List ((Nat × Nat) × ℝ)) : List (Nat × Pt) :=
  (locatePair sq tol known D).1.1

/-- Number of executed passes of the main loop. -/
def trilatPasses (sq : ℝ → ℝ) (tol : ℝ) (known : List (Nat × Pt))
    (D : List ((Nat × Nat) × ℝ)) : Nat :=
  (locatePair sq tol known D).2

/-- The `(known_positions, estimated_positions)` state after `k`
unconditional applications of the pass body, starting from the
`known_positions` of the caller and empty `estimated_positions`.
The intermediate states of the main loop are exactly these iterates. -/
def afterPasses (sq : ℝ → ℝ) (tol : ℝ) (D : List ((Nat × Nat) × ℝ))
    (known : List (Nat × Pt)) (k : Nat) :
    List (Nat × Pt) × List (Nat × Pt) :=
  (fun p => let s := onePass sq tol D p.1 p.2; (s.known, s.est))^[k] (known, [])

/-! ### `belief_propagation` (grid belief propagation solver) -/

/-- Configuration of the grid solver: `grid_size` (cell size,
default 1), `area_size` (default 100), `noise_std` (default 0.5). -/
structure GridCfg where
  grid_size : ℝ
  area_size : ℝ
  noise_std : ℝ

/-- Number of grid cells per axis:
`np.arange(0, area_size, grid_size)` has `⌈area_size / grid_size⌉`
entries. -/
def gridCount (cfg : GridCfg) : Nat :=
  (Int.ceil (cfg.area_size / cfg.grid_size)).toNat

/-- Row-major enumeration of the cell indices of an `n × n` grid, the
flattening order used by `np.argmax` / `np.unravel_index`. -/
def rmIdx (n : Nat) : List (Nat × Nat) :=
  (List.range (n * n)).map (fun k => (k / n, k % n))

/-- First-occurrence maximum accumulator: `np.argmax` keeps the
current best and replaces it only on a strictly greater value. -/
def argmaxAux (f : Nat × Nat → ℝ) : Nat × Nat → List (Nat × Nat) → Nat × Nat
  | best, [] => best
  | best, x :: xs =>
    if f best < f x then argmaxAux f x xs else argmaxAux f best xs

/-- `np.argmax` over the row-major flattening: index of the first
maximal entry (`none` on an empty grid, where numpy raises). -/
def argmaxList (f : Nat × Nat → ℝ) : List (Nat × Nat) → Option (Nat × Nat)
  | [] => none
  | x :: xs => some (argmaxAux f x xs)

/-- `np.max`: the value at the first maximal entry. -/
def maxList (f : Nat × Nat → ℝ) (l : List (Nat × Nat)) : Option ℝ :=
  (argmaxList f l).map f

/-- The known-neighbor comprehension of `belief_propagation`:

```
[(nbr, known_positions[nbr], distances[(node, nbr)])
 for (a, b) in distances if node in (a, b)
 for nbr in ([a] if node == b else [b])
 if nbr in known_positions]
```

The inner lookup `distances[(node, nbr)]` uses only the one key order
`(node, nbr)` and raises `KeyError` when only `(nbr, node)` is
materialized; the `Option` result models that exception. -/
def bpNeighbors (known : List (Nat × Pt)) (Dfull : List ((Nat × Nat) × ℝ))
    (node : Nat) : List ((Nat × Nat) × ℝ) → Option (List (Nat × Pt × ℝ))
  | [] => some []
  | ((a, b), _) :: rest =>
    if node = a ∨ node = b then
      let nbr := if node = b then a else b
      if hasKey known nbr then
        match aget Dfull (node, nbr) with
        | none => none
        | some dv =>
          match bpNeighbors known Dfull node rest with
          | none => none
          | some l => some ((nbr, (aget known nbr).getD (0, 0), dv) :: l)
      else bpNeighbors known Dfull node rest
    else bpNeighbors known Dfull node rest

/-- Neighbor list of a node, over the full distance dict. -/
def bpNeighborsOf (known : List (Nat × Pt)) (D : List ((Nat × Nat) × ℝ))
    (node : Nat) : Option (List (Nat × Pt × ℝ)) :=
  bpNeighbors known D node D

/-- The accumulated belief surface of one node: the cell `(i, j)` has
center `(j * grid_size, i * grid_size)` (numpy `meshgrid` with default
indexing), the belief starts at the uniform `1` and each known
neighbor multiplies in `pdf(dist_map, loc=d, scale=noise_std)` where
`dist_map` is the Euclidean distance from the cell center to the
neighbor position. -/
def nodeBelief (sq : ℝ → ℝ) (pdf : ℝ → ℝ → ℝ → ℝ) (cfg : GridCfg)
    (nbrs : List (Nat × Pt × ℝ)) : Nat → Nat → ℝ :=
  nbrs.foldl
    (fun bel nb => fun i j =>
      bel i j *
        pdf (sq (((j : ℝ) * cfg.grid_size - nb.2.1.1) ^ 2 +
                 ((i : ℝ) * cfg.grid_size - nb.2.1.2) ^ 2))
          nb.2.2 cfg.noise_std)
    (fun _ _ => 1)

/-- `np.max(belief)` for the accumulated surface of one node (`none` when
the neighbor comprehension raises `KeyError` or the grid is empty). -/
def nodeMaxBelief (sq : ℝ → ℝ) (pdf : ℝ → ℝ → ℝ → ℝ) (cfg : GridCfg)
    (known : List (Nat × Pt)) (D : List ((Nat × Nat) × ℝ))
    (node : Nat) : Option ℝ :=
  (bpNeighborsOf known D node).bind (fun nbrs =>
    maxList (fun p => nodeBelief sq pdf cfg nbrs p.1 p.2)
      (rmIdx (gridCount cfg)))

/-- Estimate of one unknown node: normalize the belief surface by its
maximum (`belief /= np.max(belief)`; no zero-maximum guard exists in
the source, and the Lean convention `x / 0 = 0` stands in for the NaN surface), and
return the center of the first cell attaining the maximal normalized
belief. -/
def nodeEstimate (sq : ℝ → ℝ) (pdf : ℝ → ℝ → ℝ → ℝ) (cfg : GridCfg)
    (known : List (Nat × Pt)) (D : List ((Nat × Nat) × ℝ))
    (node : Nat) : Option Pt :=
  (bpNeighborsOf known D node).bind (fun nbrs =>
    (nodeMaxBelief sq pdf cfg known D node).bind (fun m =>
      (argmaxList
          (fun p => nodeBelief sq pdf cfg nbrs p.1 p.2 / m)
          (rmIdx (gridCount cfg))).map
        (fun ij => ((ij.2 : ℝ) * cfg.grid_size, (ij.1 : ℝ) * cfg.grid_size))))

/-- `OfflineLocalization.belief_propagation`: estimate every unknown
node independently; `none` models the run aborting with an uncaught
exception (`KeyError` from the one-directional distance lookup). -/
def belief_propagation (sq : ℝ → ℝ) (pdf : ℝ → ℝ → ℝ → ℝ) (cfg : GridCfg)
    (known : List (Nat × Pt)) (D : List ((Nat × Nat) × ℝ)) :
    Option (List (Nat × Pt)) :=
  go (unknownNodes D known)
where
  go : List Nat → Option (List (Nat × Pt))
    | [] => some []
    | node :: rest =>
      (nodeEstimate sq pdf cfg known D node).bind (fun p =>
        (go rest).map (fun l => (node, p) :: l))

/-- The ideal Gaussian density `scipy.stats.norm.pdf(x, loc, scale)`. -/
def gaussianPdf (x loc scale : ℝ) : ℝ :=
  Real.exp (-((x - loc) ^ 2) / (2 * scale ^ 2)) / (scale * Real.sqrt (2 * Real.pi))

/-- The default configuration of `OfflineLocalization.__init__` in
`beliefPropagationLocalization.py`. -/
def defaultGridCfg : GridCfg := ⟨1, 100, 1 / 2⟩


/-! ### Generic helper lemmas -/

lemma obind_some {α β : Type} (a : α) (f : α → Option β) :
    (some a).bind f = f a := rfl

lemma omap_some {α β : Type} (a : α) (f : α → β) :
    (some a).map f = some (f a) := rfl

lemma sqrt_eval {a b : ℝ} (h : a = b ^ 2) (hb : 0 ≤ b) : Real.sqrt a = b := by
  rw [h, Real.sqrt_sq hb]

lemma insOrdered_nil (x : Nat × ℝ) : insOrdered [] x = [x] := rfl

lemma insOrdered_cons (y : Nat × ℝ) (ys : List (Nat × ℝ)) (x : Nat × ℝ) :
    insOrdered (y :: ys) x
      = if y.2 ≤ x.2 then y :: insOrdered ys x else x :: y :: ys := rfl

lemma mainLoopC_zero (sq : ℝ → ℝ) (tol : ℝ) (D : List ((Nat × Nat) × ℝ))
    (uc maxIt count : Nat) (known est : List (Nat × Pt)) :
    mainLoopC sq tol D uc maxIt 0 count known est = ((known, est), 0) := rfl

lemma mainLoopC_succ (sq : ℝ → ℝ) (tol : ℝ) (D : List ((Nat × Nat) × ℝ))
    (uc maxIt fuel count : Nat) (known est : List (Nat × Pt)) :
    mainLoopC sq tol D uc maxIt (fuel + 1) count known est
      = if est.length < uc then
          let s := onePass sq tol D known est
          if maxIt < count + 1 then ((s.known, s.est), 1)
          else if !s.prog && s.pend.isEmpty then ((s.known, s.est), 1)
          else
            let r := mainLoopC sq tol D uc maxIt fuel (count + 1) s.known s.est
            (r.1, r.2 + 1)
        else ((known, est), 0) := rfl

lemma stepEdge_est (sq : ℝ → ℝ) (tol : ℝ) (D : List ((Nat × Nat) × ℝ)) (s : PassSt)
    (id1 id2 : Nat) (p1k : Nat) (d1 : ℝ) (p2k : Nat) (d2 : ℝ) (p4k : Nat) (d4 : ℝ)
    (rest : List (Nat × ℝ)) (p : Pt)
    (h1 : hasKey s.known id1 = true) (h2 : hasKey s.known id2 = false)
    (hsort : pySortByDist (neighborList D s.known id2)
      = (p1k, d1) :: (p2k, d2) :: (p4k, d4) :: rest)
    (htri : trilaterate sq tol ((aget s.known p1k).getD (0, 0))
      ((aget s.known p2k).getD (0, 0)) ((aget s.known p4k).getD (0, 0))
      d1 d2 d4 = some p) :
    stepEdge sq tol D s id1 id2
      = { s with known := s.known ++ [(id2, p)], est := s.est ++ [(id2, p)],
                 prog := true } := by
  unfold stepEdge
  rw [h1, h2, hsort]
  show pickTri sq tol s id2 ((p1k, d1) :: (p2k, d2) :: (p4k, d4) :: rest) = _
  rw [show pickTri sq tol s id2 ((p1k, d1) :: (p2k, d2) :: (p4k, d4) :: rest)
      = applyEst s id2 (trilaterate sq tol ((aget s.known p1k).getD (0, 0))
          ((aget s.known p2k).getD (0, 0)) ((aget s.known p4k).getD (0, 0))
          d1 d2 d4) from rfl, htri]
  rfl

lemma stepEdge_skip (sq : ℝ → ℝ) (tol : ℝ) (D : List ((Nat × Nat) × ℝ)) (s : PassSt)
    (id1 id2 : Nat)
    (h : (hasKey s.known id1 && !(hasKey s.known id2)) = false) :
    stepEdge sq tol D s id1 id2 = s := by
  unfold stepEdge
  rw [h]
  rfl

/-- Behavior of `circle_intersection` as a case split on the guard. -/
lemma ci_none_iff (sq : ℝ → ℝ) (p1 : Pt) (r1 : ℝ) (p2 : Pt) (r2 : ℝ) :
    circle_intersection sq p1 r1 p2 r2 = none ↔
      (sq ((p1.1 - p2.1) ^ 2 + (p1.2 - p2.2) ^ 2) > r1 + r2 ∨
       sq ((p1.1 - p2.1) ^ 2 + (p1.2 - p2.2) ^ 2) < |r1 - r2| ∨
       sq ((p1.1 - p2.1) ^ 2 + (p1.2 - p2.2) ^ 2) = 0) := by
  simp only [circle_intersection]
  split_ifs with h
  · simp [h]
  · simp [h]

lemma trilaterate_none_iff_ci (sq : ℝ → ℝ) (tol : ℝ) (p1 p2 p4 : Pt)
    (d1 d2 d4 : ℝ) :
    trilaterate sq tol p1 p2 p4 d1 d2 d4 = none ↔
      circle_intersection sq p1 d1 p2 d2 = none := by
  unfold trilaterate
  cases h : circle_intersection sq p1 d1 p2 d2 with
  | none => simp
  | some pr =>
    obtain ⟨a, b⟩ := pr
    simp only []
    split_ifs <;> simp

/-! ### Claim C2 -/

/-- C2: `trilaterate(p1,p2,p3,d1,d2,d3)` returns `NoSolution` (None)
if and only if `dist = ‖p1 − p2‖` satisfies `dist > d1 + d2`, or
`dist < |d1 − d2|`, or `dist == 0`; for every other input it returns a
position.  The Euclidean norm `‖p1 − p2‖` is
`Real.sqrt ((p1.1 - p2.1)^2 + (p1.2 - p2.2)^2)`. -/
theorem trilaterate_none_iff (tol : ℝ) (p1 p2 p4 : Pt) (d1 d2 d4 : ℝ) :
    trilaterate Real.sqrt tol p1 p2 p4 d1 d2 d4 = none ↔
      (Real.sqrt ((p1.1 - p2.1) ^ 2 + (p1.2 - p2.2) ^ 2) > d1 + d2 ∨
       Real.sqrt ((p1.1 - p2.1) ^ 2 + (p1.2 - p2.2) ^ 2) < |d1 - d2| ∨
       Real.sqrt ((p1.1 - p2.1) ^ 2 + (p1.2 - p2.2) ^ 2) = 0) := by
  rw [trilaterate_none_iff_ci, ci_none_iff]

/-! ### Claim C3 -/

/-- C3 counterexample: the selection criterion of `trilaterate` is not
the fixed absolute tolerance `0.01`: `np.isclose` adds the relative
term `1e-05 * |d4|`.  With `p1 = (0,0)`, `p2 = (8,0)`, `p4 = (4,10003)`,
`d1 = d2 = 5`, `d4 = 10000.05`, the candidates are `(4,3)` and `(4,-3)`
whose distances to `p4` are `10000` and `10006`; neither is within
`0.01` of `d4`, so the claim demands the midpoint `(4, 0)`, but the
code selects the first candidate `(4, 3)` because
`|10000 - 10000.05| = 0.05 ≤ 0.01 + 1e-05 * 10000.05`. -/
theorem trilaterate_rtol_cex :
    circle_intersection Real.sqrt (0, 0) 5 (8, 0) 5 = some ((4, 3), (4, -3)) ∧
    ¬ |Real.sqrt (((4:ℝ) - 4) ^ 2 + ((10003:ℝ) - 3) ^ 2) - (10000 + 1/20)| ≤ 1/100 ∧
    ¬ |Real.sqrt (((4:ℝ) - 4) ^ 2 + ((10003:ℝ) - (-3)) ^ 2) - (10000 + 1/20)| ≤ 1/100 ∧
    trilaterate Real.sqrt (1/100) (0, 0) (8, 0) (4, 10003) 5 5 (10000 + 1/20)
      = some (4, 3) ∧
    ((4:ℝ), (3:ℝ)) ≠ (((4:ℝ) + 4) / 2, ((3:ℝ) + -3) / 2) := by
  have hci : circle_intersection Real.sqrt (0, 0) 5 (8, 0) 5
      = some ((4, 3), (4, -3)) := by
    have h8 : Real.sqrt ((((0:ℝ), (0:ℝ)).1 - ((8:ℝ), (0:ℝ)).1) ^ 2 +
        (((0:ℝ), (0:ℝ)).2 - ((8:ℝ), (0:ℝ)).2) ^ 2) = 8 :=
      sqrt_eval (by norm_num) (by norm_num)
    simp only [circle_intersection, h8]
    rw [if_neg (by norm_num)]
    rw [sqrt_eval (b := 3) (by norm_num) (by norm_num)]
    norm_num
  have ha : Real.sqrt (((4:ℝ) - 4) ^ 2 + ((10003:ℝ) - 3) ^ 2) = 10000 :=
    sqrt_eval (by norm_num) (by norm_num)
  have hb : Real.sqrt (((4:ℝ) - 4) ^ 2 + ((10003:ℝ) - (-3)) ^ 2) = 10006 :=
    sqrt_eval (by norm_num) (by norm_num)
  refine ⟨hci, ?_, ?_, ?_, by norm_num [Prod.ext_iff]⟩
  · rw [ha, show (10000:ℝ) - (10000 + 1/20) = -(1/20) from by norm_num, abs_neg,
      abs_of_nonneg (by norm_num : (0:ℝ) ≤ 1/20)]
    norm_num
  · rw [hb, show (10006:ℝ) - (10000 + 1/20) = 119/20 from by norm_num,
      abs_of_nonneg (by norm_num : (0:ℝ) ≤ 119/20)]
    norm_num
  · simp only [trilaterate, hci]
    rw [show ((((4:ℝ), (10003:ℝ)).1 - ((4:ℝ), (3:ℝ)).1) ^ 2 +
        (((4:ℝ), (10003:ℝ)).2 - ((4:ℝ), (3:ℝ)).2) ^ 2)
        = (((4:ℝ) - 4) ^ 2 + ((10003:ℝ) - 3) ^ 2) from by norm_num, ha]
    rw [if_pos (by
      unfold npIsClose
      rw [abs_of_nonpos (by norm_num), abs_of_nonneg (by norm_num)]
      norm_num)]

/-- C3 amended: when the circle-intersection step yields the two
candidates `c1, c2`, the first candidate whose distance to `p4` passes
the numpy closeness test `|dist - d4| ≤ tol + 1e-05 * |d4|` (absolute
tolerance `tol`, default `0.01`, plus the numpy default relative term)
is returned, `c1` taking priority; when neither passes, the exact
arithmetic midpoint of the two candidates is returned (never a failure
at this stage). -/
theorem trilaterate_branches (tol : ℝ) (p1 p2 p4 : Pt) (d1 d2 d4 : ℝ)
    (c1 c2 : Pt)
    (hci : circle_intersection Real.sqrt p1 d1 p2 d2 = some (c1, c2)) :
    (|Real.sqrt ((p4.1 - c1.1) ^ 2 + (p4.2 - c1.2) ^ 2) - d4|
        ≤ tol + (1 / 100000) * |d4| →
      trilaterate Real.sqrt tol p1 p2 p4 d1 d2 d4 = some c1) ∧
    (¬ |Real.sqrt ((p4.1 - c1.1) ^ 2 + (p4.2 - c1.2) ^ 2) - d4|
        ≤ tol + (1 / 100000) * |d4| →
      |Real.sqrt ((p4.1 - c2.1) ^ 2 + (p4.2 - c2.2) ^ 2) - d4|
        ≤ tol + (1 / 100000) * |d4| →
      trilaterate Real.sqrt tol p1 p2 p4 d1 d2 d4 = some c2) ∧
    (¬ |Real.sqrt ((p4.1 - c1.1) ^ 2 + (p4.2 - c1.2) ^ 2) - d4|
        ≤ tol + (1 / 100000) * |d4| →
      ¬ |Real.sqrt ((p4.1 - c2.1) ^ 2 + (p4.2 - c2.2) ^ 2) - d4|
        ≤ tol + (1 / 100000) * |d4| →
      trilaterate Real.sqrt tol p1 p2 p4 d1 d2 d4
        = some ((c1.1 + c2.1) / 2, (c1.2 + c2.2) / 2)) := by
  simp only [trilaterate, hci]
  refine ⟨fun h1 => ?_, fun h1 h2 => ?_, fun h1 h2 => ?_⟩
  · rw [if_pos (show npIsClose tol
      (Real.sqrt ((p4.1 - c1.1) ^ 2 + (p4.2 - c1.2) ^ 2)) d4 from h1)]
  · rw [if_neg (show ¬ npIsClose tol
      (Real.sqrt ((p4.1 - c1.1) ^ 2 + (p4.2 - c1.2) ^ 2)) d4 from h1),
      if_pos (show npIsClose tol
      (Real.sqrt ((p4.1 - c2.1) ^ 2 + (p4.2 - c2.2) ^ 2)) d4 from h2)]
  · rw [if_neg (show ¬ npIsClose tol
      (Real.sqrt ((p4.1 - c1.1) ^ 2 + (p4.2 - c1.2) ^ 2)) d4 from h1),
      if_neg (show ¬ npIsClose tol
      (Real.sqrt ((p4.1 - c2.1) ^ 2 + (p4.2 - c2.2) ^ 2)) d4 from h2)]

/-- Witness for `trilaterate_branches`: with `p1 = (0,0)`, `p2 = (8,0)`,
`p4 = (0,3)`, `d1 = d2 = 5`, `d4 = 4`, the first candidate `(4,3)` is
at distance exactly `4` from `p4` and is selected. -/
theorem trilaterate_branches_witness :
    trilaterate Real.sqrt (1/100) (0, 0) (8, 0) (0, 3) 5 5 4 = some (4, 3) := by
  have hci : circle_intersection Real.sqrt (0, 0) 5 (8, 0) 5
      = some ((4, 3), (4, -3)) := by
    have h8 : Real.sqrt ((((0:ℝ), (0:ℝ)).1 - ((8:ℝ), (0:ℝ)).1) ^ 2 +
        (((0:ℝ), (0:ℝ)).2 - ((8:ℝ), (0:ℝ)).2) ^ 2) = 8 :=
      sqrt_eval (by norm_num) (by norm_num)
    simp only [circle_intersection, h8]
    rw [if_neg (by norm_num)]
    rw [sqrt_eval (b := 3) (by norm_num) (by norm_num)]
    norm_num
  exact (trilaterate_branches (1/100) (0, 0) (8, 0) (0, 3) 5 5 4 (4, 3) (4, -3)
    hci).1 (by
      rw [show ((((0:ℝ), (3:ℝ)).1 - ((4:ℝ), (3:ℝ)).1) ^ 2 +
          (((0:ℝ), (3:ℝ)).2 - ((4:ℝ), (3:ℝ)).2) ^ 2) = (16:ℝ) from by norm_num]
      rw [sqrt_eval (b := 4) (by norm_num) (by norm_num)]
      norm_num)

/-! ### Structure of the main loop of `locate_other_vehicles` -/

/-- Each edge body application leaves the state unchanged, defers the
node, or appends one freshly estimated node to both dicts. -/
lemma stepEdge_cases (sq : ℝ → ℝ) (tol : ℝ) (D : List ((Nat × Nat) × ℝ))
    (s : PassSt) (id1 id2 : Nat) :
    stepEdge sq tol D s id1 id2 = s ∨
    stepEdge sq tol D s id1 id2 = { s with pend := s.pend ++ [id2] } ∨
    ∃ p, hasKey s.known id2 = false ∧
      stepEdge sq tol D s id1 id2
        = { s with known := s.known ++ [(id2, p)], est := s.est ++ [(id2, p)],
                   prog := true } := by
  unfold stepEdge
  cases hc : (hasKey s.known id1 && !(hasKey s.known id2)) with
  | false =>
    left
    rfl
  | true =>
    have h2 : hasKey s.known id2 = false := by
      have hn := hc
      simp at hn
      exact hn.2
    rcases hl : pySortByDist (neighborList D s.known id2) with
      _ | ⟨⟨p1k, d1⟩, _ | ⟨⟨p2k, d2⟩, _ | ⟨⟨p4k, d4⟩, rest⟩⟩⟩
    · right; left; rfl
    · right; left; rfl
    · right; left; rfl
    · cases ht : trilaterate sq tol ((aget s.known p1k).getD (0, 0))
          ((aget s.known p2k).getD (0, 0)) ((aget s.known p4k).getD (0, 0))
          d1 d2 d4 with
      | none =>
        left
        show applyEst s id2 (trilaterate sq tol ((aget s.known p1k).getD (0, 0))
          ((aget s.known p2k).getD (0, 0)) ((aget s.known p4k).getD (0, 0))
          d1 d2 d4) = s
        rw [ht]
        rfl
      | some p =>
        right; right
        refine ⟨p, h2, ?_⟩
        show applyEst s id2 (trilaterate sq tol ((aget s.known p1k).getD (0, 0))
          ((aget s.known p2k).getD (0, 0)) ((aget s.known p4k).getD (0, 0))
          d1 d2 d4) = _
        rw [ht]
        rfl

lemma hasKey_append {κ β : Type} [DecidableEq κ] (l1 l2 : List (κ × β)) (k : κ) :
    hasKey (l1 ++ l2) k = (hasKey l1 k || hasKey l2 k) := by
  induction l1 with
  | nil => simp [hasKey, aget]
  | cons x l ih =>
    obtain ⟨a, b⟩ := x
    by_cases hak : a = k
    · simp [hasKey, aget, hak]
    · simpa [hasKey, aget, hak] using ih

lemma dedupFirst_mem (x : Nat) (l : List Nat) : x ∈ dedupFirst l ↔ x ∈ l := by
  have aux : ∀ (l acc : List Nat),
      (x ∈ l.foldl (fun acc y => if y ∈ acc then acc else acc ++ [y]) acc
        ↔ x ∈ acc ∨ x ∈ l) := by
    intro l
    induction l with
    | nil => intro acc; simp
    | cons y ys ih =>
      intro acc
      rw [List.foldl_cons, ih]
      by_cases hy : y ∈ acc
      · rw [if_pos hy]
        constructor
        · rintro (h | h)
          · exact Or.inl h
          · exact Or.inr (List.mem_cons_of_mem _ h)
        · rintro (h | h)
          · exact Or.inl h
          · rcases List.mem_cons.mp h with rfl | h
            · exact Or.inl hy
            · exact Or.inr h
      · rw [if_neg hy]
        constructor
        · rintro (h | h)
          · rcases List.mem_append.mp h with h | h
            · exact Or.inl h
            · simp at h
              subst h
              exact Or.inr (List.mem_cons_self _ _)
          · exact Or.inr (List.mem_cons_of_mem _ h)
        · rintro (h | h)
          · exact Or.inl (List.mem_append.mpr (Or.inl h))
          · rcases List.mem_cons.mp h with rfl | h
            · exact Or.inl (by simp)
            · exact Or.inr h
  rw [dedupFirst, aux]
  simp

lemma mem_nodesIn (D : List ((Nat × Nat) × ℝ)) (e : (Nat × Nat) × ℝ)
    (he : e ∈ D) : e.1.1 ∈ nodesIn D ∧ e.1.2 ∈ nodesIn D := by
  have hbase : ∀ (l : List ((Nat × Nat) × ℝ)), e ∈ l →
      e.1.1 ∈ l.foldr (fun e acc => e.1.1 :: e.1.2 :: acc) [] ∧
      e.1.2 ∈ l.foldr (fun e acc => e.1.1 :: e.1.2 :: acc) [] := by
    intro l hl
    induction l with
    | nil => cases hl
    | cons a l ih =>
      rw [List.foldr_cons]
      rcases List.mem_cons.mp hl with rfl | hl
      · constructor
        · exact List.mem_cons_self _ _
        · exact List.mem_cons_of_mem _ (List.mem_cons_self _ _)
      · obtain ⟨h1, h2⟩ := ih hl
        exact ⟨List.mem_cons_of_mem _ (List.mem_cons_of_mem _ h1),
          List.mem_cons_of_mem _ (List.mem_cons_of_mem _ h2)⟩
  obtain ⟨h1, h2⟩ := hbase D he
  exact ⟨(dedupFirst_mem _ _).mpr h1, (dedupFirst_mem _ _).mpr h2⟩

/-- The invariant of one edge body: the working `known_positions` stays
`anchors ++ estimated_positions`, and every estimated node is an
unknown node of the input. -/
lemma stepEdge_inv (sq : ℝ → ℝ) (tol : ℝ) (D : List ((Nat × Nat) × ℝ))
    (K : List (Nat × Pt)) (s : PassSt) (id1 id2 : Nat)
    (hnode : ∃ e ∈ D, e.1.2 = id2)
    (h1 : s.known = K ++ s.est)
    (h2 : ∀ q ∈ s.est, q.1 ∈ unknownNodes D K) :
    (stepEdge sq tol D s id1 id2).known = K ++ (stepEdge sq tol D s id1 id2).est ∧
    (∀ q ∈ (stepEdge sq tol D s id1 id2).est, q.1 ∈ unknownNodes D K) := by
  rcases stepEdge_cases sq tol D s id1 id2 with h | h | ⟨p, hk2, h⟩ <;> rw [h]
  · exact ⟨h1, h2⟩
  · exact ⟨h1, h2⟩
  · constructor
    · show s.known ++ [(id2, p)] = K ++ (s.est ++ [(id2, p)])
      rw [h1, List.append_assoc]
    · intro q hq
      rcases List.mem_append.mp hq with hq | hq
      · exact h2 q hq
      · simp at hq
        subst hq
        show id2 ∈ unknownNodes D K
        have hKfalse : hasKey K id2 = false := by
          rw [h1, hasKey_append] at hk2
          exact (Bool.or_eq_false_iff.mp hk2).1
        obtain ⟨e, he, hid⟩ := hnode
        refine List.mem_filter.mpr ⟨?_, ?_⟩
        · rw [← hid]
          exact (mem_nodesIn D e he).2
        · rw [hKfalse]
          rfl

/-- Fold a state invariant through one full pass. -/
lemma onePass_inv (sq : ℝ → ℝ) (tol : ℝ) (D : List ((Nat × Nat) × ℝ))
    (K : List (Nat × Pt)) (known est : List (Nat × Pt))
    (h1 : known = K ++ est)
    (h2 : ∀ q ∈ est, q.1 ∈ unknownNodes D K) :
    (onePass sq tol D known est).known = K ++ (onePass sq tol D known est).est ∧
    (∀ q ∈ (onePass sq tol D known est).est, q.1 ∈ unknownNodes D K) := by
  have aux : ∀ (l : List ((Nat × Nat) × ℝ)), (∀ e ∈ l, e ∈ D) →
      ∀ s : PassSt, s.known = K ++ s.est →
      (∀ q ∈ s.est, q.1 ∈ unknownNodes D K) →
      (l.foldl (fun s e => stepEdge sq tol D s e.1.1 e.1.2) s).known
        = K ++ (l.foldl (fun s e => stepEdge sq tol D s e.1.1 e.1.2) s).est ∧
      (∀ q ∈ (l.foldl (fun s e => stepEdge sq tol D s e.1.1 e.1.2) s).est,
        q.1 ∈ unknownNodes D K) := by
    intro l
    induction l with
    | nil => intro _ s hs1 hs2; exact ⟨hs1, hs2⟩
    | cons e l ih =>
      intro hsub s hs1 hs2
      rw [List.foldl_cons]
      obtain ⟨hh1, hh2⟩ := stepEdge_inv sq tol D K s e.1.1 e.1.2
        ⟨e, hsub e (List.mem_cons_self _ _), rfl⟩ hs1 hs2
      exact ih (fun x hx => hsub x (List.mem_cons_of_mem _ hx)) _ hh1 hh2
  exact aux D (fun _ hx => hx) ⟨known, est, false, []⟩ h1 h2

/-- Fold a state invariant (on the `(known, est)` pair) through the
whole main loop. -/
lemma mainLoopC_inv (sq : ℝ → ℝ) (tol : ℝ) (D : List ((Nat × Nat) × ℝ))
    (uc maxIt : Nat) (P : List (Nat × Pt) → List (Nat × Pt) → Prop)
    (hstep : ∀ known est, P known est →
      P (onePass sq tol D known est).known (onePass sq tol D known est).est) :
    ∀ fuel count known est, P known est →
      P (mainLoopC sq tol D uc maxIt fuel count known est).1.1
        (mainLoopC sq tol D uc maxIt fuel count known est).1.2 := by
  intro fuel
  induction fuel with
  | zero => intro count known est h; exact h
  | succ fuel ih =>
    intro count known est h
    simp only [mainLoopC_succ]
    split_ifs with h1 h2 h3
    · exact hstep known est h
    · exact hstep known est h
    · exact ih (count + 1) _ _ (hstep known est h)
    · exact h

/-- The number of executed passes never exceeds the fuel. -/
lemma mainLoopC_passes_le (sq : ℝ → ℝ) (tol : ℝ) (D : List ((Nat × Nat) × ℝ))
    (uc maxIt : Nat) :
    ∀ fuel count known est,
      (mainLoopC sq tol D uc maxIt fuel count known est).2 ≤ fuel := by
  intro fuel
  induction fuel with
  | zero => intro count known est; exact Nat.le_refl 0
  | succ fuel ih =>
    intro count known est
    simp only [mainLoopC_succ]
    split_ifs
    · exact Nat.le_add_left 1 fuel
    · exact Nat.le_add_left 1 fuel
    · exact Nat.succ_le_succ (ih (count + 1) _ _)
    · exact Nat.zero_le _

/-- With count still below the cap and enough fuel on both sides, the
result does not depend on the exact fuel: the source loop always
breaks within `maxIt + 1 - count` further passes. -/
lemma mainLoopC_stable (sq : ℝ → ℝ) (tol : ℝ) (D : List ((Nat × Nat) × ℝ))
    (uc maxIt : Nat) :
    ∀ f g count known est, count ≤ maxIt →
      maxIt + 1 ≤ f + count → maxIt + 1 ≤ g + count →
      mainLoopC sq tol D uc maxIt f count known est
        = mainLoopC sq tol D uc maxIt g count known est := by
  intro f
  induction f with
  | zero =>
    intro g count known est hc hf hg
    omega
  | succ f ih =>
    intro g count known est hc hf hg
    cases g with
    | zero => omega
    | succ g =>
      simp only [mainLoopC_succ]
      by_cases hlen : est.length < uc
      · rw [if_pos hlen, if_pos hlen]
        by_cases hcap : maxIt < count + 1
        · rw [if_pos hcap, if_pos hcap]
        · rw [if_neg hcap, if_neg hcap]
          by_cases hbr : (!(onePass sq tol D known est).prog
              && (onePass sq tol D known est).pend.isEmpty) = true
          · rw [if_pos hbr, if_pos hbr]
          · rw [if_neg hbr, if_neg hbr]
            rw [ih g (count + 1) _ _ (by omega) (by omega) (by omega)]
      · rw [if_neg hlen, if_neg hlen]

/-! ### Claim C4 -/

/-- C4 counterexample: with one unknown node that never reaches three
known neighbors, the iteration cap is `|unknown|² = 1`, but the main
loop executes `2` passes (the source breaks only when
`iteration_count > max_iterations`, i.e. after cap + 1 passes). -/
theorem iteration_cap_cex :
    maxIterOf [((1, 2), (1:ℝ))] [(1, ((0:ℝ), 0))] = 1 ∧
    trilatPasses Real.sqrt (1/100) [(1, ((0:ℝ), 0))] [((1, 2), (1:ℝ))] = 2 :=
  ⟨rfl, rfl⟩

/-- C4 amended: for every input the main loop terminates — it executes
at most `|unknown_nodes|² + 1` passes (one more than the cap), giving
it any additional fuel does not change the result, and the returned
`estimated_positions` is empty or partial: every estimated node is an
unknown node of the input. -/
theorem loop_terminates_bounded (sq : ℝ → ℝ) (tol : ℝ) (K : List (Nat × Pt))
    (D : List ((Nat × Nat) × ℝ)) :
    trilatPasses sq tol K D ≤ maxIterOf D K + 1 ∧
    (∀ extra, mainLoopC sq tol D (unknownNodes D K).length (maxIterOf D K)
        (maxIterOf D K + 1 + extra) 0 K []
      = mainLoopC sq tol D (unknownNodes D K).length (maxIterOf D K)
        (maxIterOf D K + 1) 0 K []) ∧
    (∀ n p, (n, p) ∈ locate sq tol K D → n ∈ unknownNodes D K) := by
  refine ⟨mainLoopC_passes_le sq tol D _ _ _ 0 K [], ?_, ?_⟩
  · intro extra
    exact mainLoopC_stable sq tol D _ _ _ _ 0 K [] (Nat.zero_le _)
      (by omega) (by omega)
  · intro n p hmem
    have hinv := mainLoopC_inv sq tol D (unknownNodes D K).length (maxIterOf D K)
      (fun known est => known = K ++ est ∧ ∀ q ∈ est, q.1 ∈ unknownNodes D K)
      (fun known est h => onePass_inv sq tol D K known est h.1 h.2)
      (maxIterOf D K + 1) 0 K [] ⟨(List.append_nil K).symm, by simp⟩
    exact hinv.2 (n, p) hmem

/-- `5 ≤ √265`, used when sorting the concrete neighbor lists. -/
lemma five_le_sqrt265 : (5:ℝ) ≤ Real.sqrt 265 := by
  rw [show (5:ℝ) = Real.sqrt 25 from (sqrt_eval (by norm_num) (by norm_num)).symm]
  exact Real.sqrt_le_sqrt (by norm_num)

/-- Concrete evaluation: circles of radius `5` around `(0,0)` and
`(8,0)` meet at `(4,3)` and `(4,-3)`. -/
lemma ciEvalA : circle_intersection Real.sqrt (0, 0) 5 (8, 0) 5
    = some ((4, 3), (4, -3)) := by
  have h8 : Real.sqrt ((((0:ℝ), (0:ℝ)).1 - ((8:ℝ), (0:ℝ)).1) ^ 2 +
      (((0:ℝ), (0:ℝ)).2 - ((8:ℝ), (0:ℝ)).2) ^ 2) = 8 :=
    sqrt_eval (by norm_num) (by norm_num)
  simp only [circle_intersection, h8]
  rw [if_neg (by norm_num)]
  rw [sqrt_eval (b := 3) (by norm_num) (by norm_num)]
  norm_num

/-- The same circles with `p1` and `p2` swapped: the two candidates
come back in the opposite order. -/
lemma ciEvalB : circle_intersection Real.sqrt (8, 0) 5 (0, 0) 5
    = some ((4, -3), (4, 3)) := by
  have h8 : Real.sqrt ((((8:ℝ), (0:ℝ)).1 - ((0:ℝ), (0:ℝ)).1) ^ 2 +
      (((8:ℝ), (0:ℝ)).2 - ((0:ℝ), (0:ℝ)).2) ^ 2) = 8 :=
    sqrt_eval (by norm_num) (by norm_num)
  simp only [circle_intersection, h8]
  rw [if_neg (by norm_num)]
  rw [sqrt_eval (b := 3) (by norm_num) (by norm_num)]
  norm_num

lemma triEvalA : trilaterate Real.sqrt (1/100) (0, 0) (8, 0) (20, 0) 5 5
    (Real.sqrt 265) = some (4, 3) := by
  simp only [trilaterate, ciEvalA]
  rw [sqrt_eval (a := (((20:ℝ), (0:ℝ)).1 - ((4:ℝ), (3:ℝ)).1) ^ 2 +
      (((20:ℝ), (0:ℝ)).2 - ((4:ℝ), (3:ℝ)).2) ^ 2) (b := Real.sqrt 265)
      (by rw [Real.sq_sqrt (by norm_num)]; norm_num) (Real.sqrt_nonneg _)]
  rw [if_pos (by
    unfold npIsClose
    rw [sub_self, abs_zero, abs_of_nonneg (Real.sqrt_nonneg _)]
    positivity)]

lemma triEvalB : trilaterate Real.sqrt (1/100) (8, 0) (0, 0) (20, 0) 5 5
    (Real.sqrt 265) = some (4, -3) := by
  simp only [trilaterate, ciEvalB]
  rw [sqrt_eval (a := (((20:ℝ), (0:ℝ)).1 - ((4:ℝ), (-3:ℝ)).1) ^ 2 +
      (((20:ℝ), (0:ℝ)).2 - ((4:ℝ), (-3:ℝ)).2) ^ 2) (b := Real.sqrt 265)
      (by rw [Real.sq_sqrt (by norm_num)]; norm_num) (Real.sqrt_nonneg _)]
  rw [if_pos (by
    unfold npIsClose
    rw [sub_self, abs_zero, abs_of_nonneg (Real.sqrt_nonneg _)]
    positivity)]

lemma sortEvalA : pySortByDist [(1, (5:ℝ)), (2, 5), (3, Real.sqrt 265)]
    = [(1, 5), (2, 5), (3, Real.sqrt 265)] := by
  simp only [pySortByDist, List.foldl, insOrdered]
  rw [if_pos (le_refl (5:ℝ))]
  rw [show insOrdered [(1, (5:ℝ)), (2, 5)] (3, Real.sqrt 265)
      = if (5:ℝ) ≤ Real.sqrt 265 then
          (1, (5:ℝ)) :: insOrdered [(2, 5)] (3, Real.sqrt 265)
        else (3, Real.sqrt 265) :: [(1, (5:ℝ)), (2, 5)] from rfl]
  rw [if_pos five_le_sqrt265]
  rw [show insOrdered [(2, (5:ℝ))] (3, Real.sqrt 265)
      = if (5:ℝ) ≤ Real.sqrt 265 then (2, (5:ℝ)) :: [(3, Real.sqrt 265)]
        else [(3, Real.sqrt 265), (2, (5:ℝ))] from rfl]
  rw [if_pos five_le_sqrt265]

lemma sortEvalB : pySortByDist [(2, (5:ℝ)), (1, 5), (3, Real.sqrt 265)]
    = [(2, 5), (1, 5), (3, Real.sqrt 265)] := by
  simp only [pySortByDist, List.foldl, insOrdered]
  rw [if_pos (le_refl (5:ℝ))]
  rw [show insOrdered [(2, (5:ℝ)), (1, 5)] (3, Real.sqrt 265)
      = if (5:ℝ) ≤ Real.sqrt 265 then
          (2, (5:ℝ)) :: insOrdered [(1, 5)] (3, Real.sqrt 265)
        else (3, Real.sqrt 265) :: [(2, (5:ℝ)), (1, 5)] from rfl]
  rw [if_pos five_le_sqrt265]
  rw [show insOrdered [(1, (5:ℝ))] (3, Real.sqrt 265)
      = if (5:ℝ) ≤ Real.sqrt 265 then (1, (5:ℝ)) :: [(3, Real.sqrt 265)]
        else [(3, Real.sqrt 265), (1, (5:ℝ))] from rfl]
  rw [if_pos five_le_sqrt265]

lemma passEvalA : onePass Real.sqrt (1/100)
    [((1, 4), (5:ℝ)), ((2, 4), 5), ((3, 4), Real.sqrt 265)]
    [(1, ((0:ℝ), (0:ℝ))), (2, (8, 0)), (3, (20, 0))] [] =
    ⟨[(1, (0, 0)), (2, (8, 0)), (3, (20, 0)), (4, (4, 3))],
      [(4, (4, 3))], true, []⟩ := by
  have st1 : stepEdge Real.sqrt (1/100)
      [((1, 4), (5:ℝ)), ((2, 4), 5), ((3, 4), Real.sqrt 265)]
      ⟨[(1, ((0:ℝ), (0:ℝ))), (2, (8, 0)), (3, (20, 0))], [], false, []⟩ 1 4
      = ⟨[(1, (0, 0)), (2, (8, 0)), (3, (20, 0)), (4, (4, 3))],
          [(4, (4, 3))], true, []⟩ :=
    stepEdge_est Real.sqrt (1/100)
      [((1, 4), (5:ℝ)), ((2, 4), 5), ((3, 4), Real.sqrt 265)]
      ⟨[(1, ((0:ℝ), (0:ℝ))), (2, (8, 0)), (3, (20, 0))], [], false, []⟩ 1 4
      1 5 2 5 3 (Real.sqrt 265) [] (4, 3) rfl rfl
      (by
        show pySortByDist [(1, (5:ℝ)), (2, 5), (3, Real.sqrt 265)] = _
        exact sortEvalA)
      triEvalA
  have st2 : stepEdge Real.sqrt (1/100)
      [((1, 4), (5:ℝ)), ((2, 4), 5), ((3, 4), Real.sqrt 265)]
      ⟨[(1, (0, 0)), (2, (8, 0)), (3, (20, 0)), (4, (4, 3))],
        [(4, (4, 3))], true, []⟩ 2 4
      = ⟨[(1, (0, 0)), (2, (8, 0)), (3, (20, 0)), (4, (4, 3))],
          [(4, (4, 3))], true, []⟩ :=
    stepEdge_skip _ _ _ _ _ _ rfl
  have st3 : stepEdge Real.sqrt (1/100)
      [((1, 4), (5:ℝ)), ((2, 4), 5), ((3, 4), Real.sqrt 265)]
      ⟨[(1, (0, 0)), (2, (8, 0)), (3, (20, 0)), (4, (4, 3))],
        [(4, (4, 3))], true, []⟩ 3 4
      = ⟨[(1, (0, 0)), (2, (8, 0)), (3, (20, 0)), (4, (4, 3))],
          [(4, (4, 3))], true, []⟩ :=
    stepEdge_skip _ _ _ _ _ _ rfl
  show stepEdge Real.sqrt (1/100) _ (stepEdge Real.sqrt (1/100) _
      (stepEdge Real.sqrt (1/100) _
        ⟨[(1, ((0:ℝ), (0:ℝ))), (2, (8, 0)), (3, (20, 0))], [], false, []⟩
        1 4) 2 4) 3 4 = _
  rw [st1, st2, st3]

lemma passEvalB : onePass Real.sqrt (1/100)
    [((1, 4), (5:ℝ)), ((2, 4), 5), ((3, 4), Real.sqrt 265)]
    [(2, ((8:ℝ), (0:ℝ))), (1, (0, 0)), (3, (20, 0))] [] =
    ⟨[(2, (8, 0)), (1, (0, 0)), (3, (20, 0)), (4, (4, -3))],
      [(4, (4, -3))], true, []⟩ := by
  have st1 : stepEdge Real.sqrt (1/100)
      [((1, 4), (5:ℝ)), ((2, 4), 5), ((3, 4), Real.sqrt 265)]
      ⟨[(2, ((8:ℝ), (0:ℝ))), (1, (0, 0)), (3, (20, 0))], [], false, []⟩ 1 4
      = ⟨[(2, (8, 0)), (1, (0, 0)), (3, (20, 0)), (4, (4, -3))],
          [(4, (4, -3))], true, []⟩ :=
    stepEdge_est Real.sqrt (1/100)
      [((1, 4), (5:ℝ)), ((2, 4), 5), ((3, 4), Real.sqrt 265)]
      ⟨[(2, ((8:ℝ), (0:ℝ))), (1, (0, 0)), (3, (20, 0))], [], false, []⟩ 1 4
      2 5 1 5 3 (Real.sqrt 265) [] (4, -3) rfl rfl
      (by
        show pySortByDist [(2, (5:ℝ)), (1, 5), (3, Real.sqrt 265)] = _
        exact sortEvalB)
      triEvalB
  have st2 : stepEdge Real.sqrt (1/100)
      [((1, 4), (5:ℝ)), ((2, 4), 5), ((3, 4), Real.sqrt 265)]
      ⟨[(2, (8, 0)), (1, (0, 0)), (3, (20, 0)), (4, (4, -3))],
        [(4, (4, -3))], true, []⟩ 2 4
      = ⟨[(2, (8, 0)), (1, (0, 0)), (3, (20, 0)), (4, (4, -3))],
          [(4, (4, -3))], true, []⟩ :=
    stepEdge_skip _ _ _ _ _ _ rfl
  have st3 : stepEdge Real.sqrt (1/100)
      [((1, 4), (5:ℝ)), ((2, 4), 5), ((3, 4), Real.sqrt 265)]
      ⟨[(2, (8, 0)), (1, (0, 0)), (3, (20, 0)), (4, (4, -3))],
        [(4, (4, -3))], true, []⟩ 3 4
      = ⟨[(2, (8, 0)), (1, (0, 0)), (3, (20, 0)), (4, (4, -3))],
          [(4, (4, -3))], true, []⟩ :=
    stepEdge_skip _ _ _ _ _ _ rfl
  show stepEdge Real.sqrt (1/100) _ (stepEdge Real.sqrt (1/100) _
      (stepEdge Real.sqrt (1/100) _
        ⟨[(2, ((8:ℝ), (0:ℝ))), (1, (0, 0)), (3, (20, 0))], [], false, []⟩
        1 4) 2 4) 3 4 = _
  rw [st1, st2, st3]

/-- Full run, anchors in insertion order `1, 2, 3`. -/
lemma locEvalA : locate Real.sqrt (1/100)
    [(1, ((0:ℝ), (0:ℝ))), (2, (8, 0)), (3, (20, 0))]
    [((1, 4), (5:ℝ)), ((2, 4), 5), ((3, 4), Real.sqrt 265)]
    = [(4, (4, 3))] := by
  show (mainLoopC Real.sqrt (1/100)
    [((1, 4), (5:ℝ)), ((2, 4), 5), ((3, 4), Real.sqrt 265)]
    1 1 (1 + 1) 0 [(1, ((0:ℝ), (0:ℝ))), (2, (8, 0)), (3, (20, 0))] []).1.2
    = [(4, (4, 3))]
  rw [mainLoopC_succ]
  rw [if_pos (by norm_num)]
  simp only [passEvalA]
  rw [if_neg (by norm_num)]
  norm_num [mainLoopC]

/-- Full run, same anchor mapping in insertion order `2, 1, 3`. -/
lemma locEvalB : locate Real.sqrt (1/100)
    [(2, ((8:ℝ), (0:ℝ))), (1, (0, 0)), (3, (20, 0))]
    [((1, 4), (5:ℝ)), ((2, 4), 5), ((3, 4), Real.sqrt 265)]
    = [(4, (4, -3))] := by
  show (mainLoopC Real.sqrt (1/100)
    [((1, 4), (5:ℝ)), ((2, 4), 5), ((3, 4), Real.sqrt 265)]
    1 1 (1 + 1) 0 [(2, ((8:ℝ), (0:ℝ))), (1, (0, 0)), (3, (20, 0))] []).1.2
    = [(4, (4, -3))]
  rw [mainLoopC_succ]
  rw [if_pos (by norm_num)]
  simp only [passEvalB]
  rw [if_neg (by norm_num)]
  norm_num [mainLoopC]

/-- Witness for `loop_terminates_bounded` at a concrete run: three
anchors, one unknown node 4 solved in one pass. -/
theorem loop_terminates_bounded_witness :
    trilatPasses Real.sqrt (1/100) [(1, ((0:ℝ), (0:ℝ))), (2, (8, 0)), (3, (20, 0))]
        [((1, 4), (5:ℝ)), ((2, 4), 5), ((3, 4), Real.sqrt 265)]
      ≤ maxIterOf [((1, 4), (5:ℝ)), ((2, 4), 5), ((3, 4), Real.sqrt 265)]
          [(1, ((0:ℝ), (0:ℝ))), (2, (8, 0)), (3, (20, 0))] + 1 ∧
    4 ∈ unknownNodes [((1, 4), (5:ℝ)), ((2, 4), 5), ((3, 4), Real.sqrt 265)]
        [(1, ((0:ℝ), (0:ℝ))), (2, (8, 0)), (3, (20, 0))] :=
  ⟨(loop_terminates_bounded Real.sqrt (1/100) _ _).1,
   (loop_terminates_bounded Real.sqrt (1/100) _ _).2.2 4 ((4:ℝ), (3:ℝ))
     (by rw [locEvalA]; simp)⟩

/-! ### Claim C5 -/

/-- C5 counterexample: a full pass that makes no progress does not
stop the loop when nodes were deferred to `pending_nodes`: with one
unknown node 2 holding a single known neighbor, the first pass makes
no progress and defers node 2, yet the solver executes a second pass
(it keeps retrying until the iteration cap). -/
theorem noprogress_keeps_looping_cex :
    (onePass Real.sqrt (1/100) [((1, 2), (1:ℝ))] [(1, ((0:ℝ), 0))] []).prog
      = false ∧
    (onePass Real.sqrt (1/100) [((1, 2), (1:ℝ))] [(1, ((0:ℝ), 0))] []).pend
      = [2] ∧
    trilatPasses Real.sqrt (1/100) [(1, ((0:ℝ), 0))] [((1, 2), (1:ℝ))] = 2 :=
  ⟨rfl, rfl, rfl⟩

/-- C5 amended: the main loop stops immediately when no unknown node
remains (`len(estimated) < len(unknown)` fails, zero further passes),
and stops right after a full pass that makes no progress *and*
deferred no node to `pending_nodes`; when a no-progress pass deferred
nodes, the loop keeps retrying until the iteration cap.  Unresolved
nodes are simply absent from the output, not an error. -/
theorem loop_stop_conditions (sq : ℝ → ℝ) (tol : ℝ) (D : List ((Nat × Nat) × ℝ))
    (uc maxIt count : Nat) (known est : List (Nat × Pt)) :
    (∀ fuel, uc ≤ est.length →
      mainLoopC sq tol D uc maxIt fuel count known est = ((known, est), 0)) ∧
    (∀ fuel, est.length < uc →
      (onePass sq tol D known est).prog = false →
      (onePass sq tol D known est).pend = [] →
      mainLoopC sq tol D uc maxIt (fuel + 1) count known est
        = (((onePass sq tol D known est).known,
            (onePass sq tol D known est).est), 1)) := by
  constructor
  · intro fuel h
    cases fuel with
    | zero => rfl
    | succ fuel =>
      rw [mainLoopC_succ, if_neg (Nat.not_lt.mpr h)]
  · intro fuel hlen hprog hpend
    rw [mainLoopC_succ, if_pos hlen]
    by_cases hcap : maxIt < count + 1
    · rw [if_pos hcap]
    · rw [if_neg hcap, if_pos (by rw [hprog, hpend]; rfl)]

/-- Witness for `loop_stop_conditions` at concrete runs: an already
complete state executes zero passes, and a no-progress, no-pending
pass stops the loop right away. -/
theorem loop_stop_conditions_witness :
    mainLoopC Real.sqrt 1 [((2, 1), (5:ℝ))] 1 1 7 0 [(1, ((0:ℝ), 0))]
        [(9, ((0:ℝ), 0))] = (([(1, ((0:ℝ), 0))], [(9, ((0:ℝ), 0))]), 0) ∧
    mainLoopC Real.sqrt 1 [((2, 1), (5:ℝ))] 1 1 (3 + 1) 0 [(1, ((0:ℝ), 0))] []
      = (([(1, ((0:ℝ), 0))], []), 1) :=
  ⟨(loop_stop_conditions Real.sqrt 1 [((2, 1), (5:ℝ))] 1 1 0
      [(1, ((0:ℝ), 0))] [(9, ((0:ℝ), 0))]).1 7 (by norm_num),
   (loop_stop_conditions Real.sqrt 1 [((2, 1), (5:ℝ))] 1 1 0
      [(1, ((0:ℝ), 0))] []).2 3 (by norm_num) rfl rfl⟩

/-! ### Claim C8: sorting and tie-breaking -/

lemma insOrdered_perm (l : List (Nat × ℝ)) (x : Nat × ℝ) :
    (insOrdered l x).Perm (x :: l) := by
  induction l with
  | nil => exact List.Perm.refl _
  | cons y ys ih =>
    rw [insOrdered_cons]
    by_cases h : y.2 ≤ x.2
    · rw [if_pos h]
      exact (ih.cons y).trans (List.Perm.swap x y ys)
    · rw [if_neg h]

lemma foldl_insOrdered_perm :
    ∀ (l acc : List (Nat × ℝ)), (l.foldl insOrdered acc).Perm (acc ++ l) := by
  intro l
  induction l with
  | nil => intro acc; simp
  | cons x xs ih =>
    intro acc
    rw [List.foldl_cons]
    refine (ih (insOrdered acc x)).trans ?_
    refine (((insOrdered_perm acc x).append_right xs).trans ?_)
    exact List.perm_middle.symm

lemma insOrdered_pairwise (x : Nat × ℝ) :
    ∀ l : List (Nat × ℝ), l.Pairwise (fun a b => a.2 ≤ b.2) →
      (insOrdered l x).Pairwise (fun a b => a.2 ≤ b.2) := by
  intro l
  induction l with
  | nil =>
    intro _
    rw [insOrdered_nil]
    simp
  | cons y ys ih =>
    intro hp
    obtain ⟨hy, hys⟩ := List.pairwise_cons.mp hp
    rw [insOrdered_cons]
    by_cases h : y.2 ≤ x.2
    · rw [if_pos h]
      refine List.pairwise_cons.mpr ⟨?_, ih hys⟩
      intro z hz
      rcases List.mem_cons.mp ((insOrdered_perm ys x).mem_iff.mp hz) with rfl | hz
      · exact h
      · exact hy z hz
    · rw [if_neg h]
      refine List.pairwise_cons.mpr ⟨?_, hp⟩
      intro z hz
      rcases List.mem_cons.mp hz with rfl | hz
      · exact le_of_not_le h
      · exact le_trans (le_of_not_le h) (hy z hz)

lemma foldl_insOrdered_pairwise :
    ∀ (l acc : List (Nat × ℝ)), acc.Pairwise (fun a b => a.2 ≤ b.2) →
      (l.foldl insOrdered acc).Pairwise (fun a b => a.2 ≤ b.2) := by
  intro l
  induction l with
  | nil => intro acc h; exact h
  | cons x xs ih =>
    intro acc h
    rw [List.foldl_cons]
    exact ih _ (insOrdered_pairwise x acc h)

/-- Stability of the insertion step: inserting into a sorted prefix
appends the new element after all existing elements of equal key, so
filtering by any exact key value preserves the original order. -/
lemma insOrdered_filter (c : ℝ) (x : Nat × ℝ) :
    ∀ l : List (Nat × ℝ), l.Pairwise (fun a b => a.2 ≤ b.2) →
      (insOrdered l x).filter (fun y => decide (y.2 = c))
        = l.filter (fun y => decide (y.2 = c))
          ++ (if x.2 = c then [x] else []) := by
  intro l
  induction l with
  | nil =>
    intro _
    rw [insOrdered_nil]
    by_cases hxc : x.2 = c <;> simp [List.filter_cons, hxc]
  | cons y ys ih =>
    intro hp
    obtain ⟨hy, hys⟩ := List.pairwise_cons.mp hp
    rw [insOrdered_cons]
    by_cases hle : y.2 ≤ x.2
    · rw [if_pos hle]
      by_cases hyc : y.2 = c <;>
        simp [List.filter_cons, hyc, ih hys]
    · rw [if_neg hle]
      by_cases hxc : x.2 = c
      · have hnone : (y :: ys).filter (fun z => decide (z.2 = c)) = [] := by
          rw [List.filter_eq_nil_iff]
          intro z hz
          have hzc : x.2 < z.2 := by
            rcases List.mem_cons.mp hz with rfl | hz
            · exact lt_of_not_le hle
            · exact lt_of_lt_of_le (lt_of_not_le hle) (hy z hz)
          simp only [decide_eq_true_eq]
          rw [hxc] at hzc
          exact ne_of_gt hzc
        rw [List.filter_cons, hnone]
        simp [hxc]
      · simp [List.filter_cons, hxc]

lemma foldl_insOrdered_filter (c : ℝ) :
    ∀ (l acc : List (Nat × ℝ)), acc.Pairwise (fun a b => a.2 ≤ b.2) →
      (l.foldl insOrdered acc).filter (fun y => decide (y.2 = c))
        = acc.filter (fun y => decide (y.2 = c))
          ++ l.filter (fun y => decide (y.2 = c)) := by
  intro l
  induction l with
  | nil => intro acc _; simp
  | cons x xs ih =>
    intro acc hacc
    rw [List.foldl_cons, ih (insOrdered acc x) (insOrdered_pairwise x acc hacc),
      insOrdered_filter c x acc hacc, List.append_assoc]
    by_cases hxc : x.2 = c <;> simp [List.filter_cons, hxc]

/-- `np.argmax` keeps the first maximum: the accumulator result splits
the scanned list into a strict-smaller prefix, the winner, and a
not-larger suffix. -/
lemma argmaxAux_spec (f : Nat × Nat → ℝ) :
    ∀ (l : List (Nat × Nat)) (best : Nat × Nat),
      ∃ l₁ l₂, best :: l = l₁ ++ argmaxAux f best l :: l₂ ∧
        (∀ j ∈ l₁, f j < f (argmaxAux f best l)) ∧
        (∀ j ∈ best :: l, f j ≤ f (argmaxAux f best l)) := by
  intro l
  induction l with
  | nil =>
    intro best
    refine ⟨[], [], rfl, by simp, ?_⟩
    intro j hj
    rcases List.mem_cons.mp hj with rfl | hj
    · exact le_refl _
    · cases hj
  | cons x xs ih =>
    intro best
    rw [show argmaxAux f best (x :: xs)
      = if f best < f x then argmaxAux f x xs else argmaxAux f best xs from rfl]
    by_cases h : f best < f x
    · rw [if_pos h]
      obtain ⟨l₁, l₂, hdec, hlt, hle⟩ := ih x
      refine ⟨best :: l₁, l₂, by rw [List.cons_append, ← hdec], ?_, ?_⟩
      · intro j hj
        rcases List.mem_cons.mp hj with rfl | hj
        · exact lt_of_lt_of_le h (hle x (List.mem_cons_self _ _))
        · exact hlt j hj
      · intro j hj
        rcases List.mem_cons.mp hj with rfl | hj
        · exact le_of_lt (lt_of_lt_of_le h (hle x (List.mem_cons_self _ _)))
        · exact hle j hj
    · rw [if_neg h]
      obtain ⟨l₁, l₂, hdec, hlt, hle⟩ := ih best
      cases l₁ with
      | nil =>
        rw [List.nil_append] at hdec
        obtain ⟨hb1, hb2⟩ := List.cons_eq_cons.mp hdec
        refine ⟨[], x :: xs, by rw [List.nil_append, ← hb1], by simp, ?_⟩
        intro j hj
        rcases List.mem_cons.mp hj with rfl | hj
        · exact hle j (List.mem_cons_self _ _)
        · rcases List.mem_cons.mp hj with rfl | hj
          · exact le_trans (le_of_not_lt h) (hle best (List.mem_cons_self _ _))
          · exact hle j (List.mem_cons_of_mem _ hj)
      | cons b l₁t =>
        rw [List.cons_append] at hdec
        obtain ⟨hb1, hb2⟩ := List.cons_eq_cons.mp hdec
        refine ⟨b :: x :: l₁t, l₂, ?_, ?_, ?_⟩
        · rw [List.cons_append, List.cons_append, ← hb2, ← hb1]
        · intro j hj
          rcases List.mem_cons.mp hj with rfl | hj
          · exact hlt j (List.mem_cons_self _ _)
          · rcases List.mem_cons.mp hj with rfl | hj
            · refine lt_of_le_of_lt (le_of_not_lt h) ?_
              nth_rewrite 1 [hb1]
              exact hlt b (List.mem_cons_self _ _)
            · exact hlt j (List.mem_cons_of_mem _ hj)
        · intro j hj
          rcases List.mem_cons.mp hj with rfl | hj
          · exact hle j (List.mem_cons_self _ _)
          · rcases List.mem_cons.mp hj with rfl | hj
            · exact le_trans (le_of_not_lt h) (hle best (List.mem_cons_self _ _))
            · exact hle j (List.mem_cons_of_mem _ hj)

lemma argmaxList_spec (f : Nat × Nat → ℝ) (l : List (Nat × Nat)) (i : Nat × Nat)
    (h : argmaxList f l = some i) :
    (∀ j ∈ l, f j ≤ f i) ∧ ∃ l₁ l₂, l = l₁ ++ i :: l₂ ∧ ∀ j ∈ l₁, f j < f i := by
  cases l with
  | nil => cases h
  | cons x xs =>
    have hi : argmaxAux f x xs = i := by
      have := h
      rw [show argmaxList f (x :: xs) = some (argmaxAux f x xs) from rfl] at this
      exact (Option.some.injEq _ _).mp this
    obtain ⟨l₁, l₂, hdec, hlt, hle⟩ := argmaxAux_spec f xs x
    rw [hi] at hdec hlt hle
    exact ⟨hle, l₁, l₂, hdec, hlt⟩

/-- The first-maximum accumulator is unmoved when nothing beats the
current best. -/
lemma argmaxAux_not_lt (f : Nat × Nat → ℝ) :
    ∀ (l : List (Nat × Nat)) (best : Nat × Nat),
      (∀ x ∈ l, ¬ f best < f x) → argmaxAux f best l = best := by
  intro l
  induction l with
  | nil => intro best _; rfl
  | cons x xs ih =>
    intro best h
    rw [show argmaxAux f best (x :: xs)
      = if f best < f x then argmaxAux f x xs else argmaxAux f best xs from rfl]
    rw [if_neg (h x (List.mem_cons_self _ _))]
    exact ih best (fun z hz => h z (List.mem_cons_of_mem _ hz))

/-- C8 counterexample: ties on equal distances are *not* broken by
neighbor id but by the insertion order of `known_positions` (the
Python `sorted` is stable over the iteration order of the dict).  The
two anchor dicts below are the same mapping with different insertion
orders; neighbors 1 and 2 of the unknown node 4 tie at distance 5, and
the two runs return different positions for node 4, `(4, 3)` versus
`(4, -3)` — under tie-breaking by neighbor id both runs would have put
neighbor 1 first and returned the same position. -/
theorem tie_break_by_id_cex :
    ([(1, ((0:ℝ), (0:ℝ))), (2, (8, 0)), (3, (20, 0))] : List (Nat × Pt)).Perm
      [(2, ((8:ℝ), (0:ℝ))), (1, (0, 0)), (3, (20, 0))] ∧
    locate Real.sqrt (1/100) [(1, ((0:ℝ), (0:ℝ))), (2, (8, 0)), (3, (20, 0))]
      [((1, 4), (5:ℝ)), ((2, 4), 5), ((3, 4), Real.sqrt 265)] = [(4, (4, 3))] ∧
    locate Real.sqrt (1/100) [(2, ((8:ℝ), (0:ℝ))), (1, (0, 0)), (3, (20, 0))]
      [((1, 4), (5:ℝ)), ((2, 4), 5), ((3, 4), Real.sqrt 265)] = [(4, (4, -3))] :=
  ⟨List.Perm.swap _ _ _, locEvalA, locEvalB⟩

/-- C8 amended: both solvers are deterministic functions of the
concrete input representation; the neighbor sort of the trilateration
solver is ascending by distance and *stable* — a permutation of the
input whose keys are nondecreasing, in which elements of any one equal
distance keep the insertion order of `known_positions` instead of
being reordered by neighbor id — and the grid solver picks the first
maximal cell in row-major scan order: every cell before the chosen one
holds strictly smaller belief and no cell beats it. -/
theorem sort_stable_argmax_first (l : List (Nat × ℝ)) (c : ℝ)
    (f : Nat × Nat → ℝ) (idxs : List (Nat × Nat)) (i : Nat × Nat) :
    (pySortByDist l).Perm l ∧
    (pySortByDist l).Pairwise (fun a b => a.2 ≤ b.2) ∧
    (pySortByDist l).filter (fun y => decide (y.2 = c))
      = l.filter (fun y => decide (y.2 = c)) ∧
    (argmaxList f idxs = some i →
      (∀ j ∈ idxs, f j ≤ f i) ∧
      ∃ l₁ l₂, idxs = l₁ ++ i :: l₂ ∧ ∀ j ∈ l₁, f j < f i) := by
  refine ⟨?_, ?_, ?_, argmaxList_spec f idxs i⟩
  · simpa using foldl_insOrdered_perm l []
  · exact foldl_insOrdered_pairwise l [] (by simp)
  · simpa using foldl_insOrdered_filter c l [] (by simp)

/-- Witness for `sort_stable_argmax_first` on a concrete tied list and
a concrete constant belief surface on the 2×2 grid. -/
theorem sort_stable_argmax_first_witness :
    (pySortByDist [(5, (2:ℝ)), (3, 2)]).Perm [(5, (2:ℝ)), (3, 2)] ∧
    ((∀ j ∈ rmIdx 2, (fun _ : Nat × Nat => (1:ℝ)) j
        ≤ (fun _ : Nat × Nat => (1:ℝ)) (0, 0)) ∧
      ∃ l₁ l₂, rmIdx 2 = l₁ ++ (0, 0) :: l₂ ∧
        ∀ j ∈ l₁, (fun _ : Nat × Nat => (1:ℝ)) j
          < (fun _ : Nat × Nat => (1:ℝ)) (0, 0)) :=
  ⟨(sort_stable_argmax_first [(5, (2:ℝ)), (3, 2)] 2 (fun _ => 1) (rmIdx 2)
      (0, 0)).1,
   (sort_stable_argmax_first [(5, (2:ℝ)), (3, 2)] 2 (fun _ => 1) (rmIdx 2)
      (0, 0)).2.2.2 (by
        rw [show rmIdx 2 = (0, 0) :: [(0, 1), (1, 0), (1, 1)] from rfl]
        rw [show argmaxList (fun _ : Nat × Nat => (1:ℝ))
            ((0, 0) :: [(0, 1), (1, 0), (1, 1)])
          = some (argmaxAux (fun _ : Nat × Nat => (1:ℝ)) (0, 0)
              [(0, 1), (1, 0), (1, 1)]) from rfl]
        rw [argmaxAux_not_lt (fun _ : Nat × Nat => (1:ℝ))
          [(0, 1), (1, 0), (1, 1)] (0, 0) (fun x _ => lt_irrefl 1)])⟩

/-! ### Claims C9 and C10: frame and growth of the two dicts -/

/-- One pass only appends to the two dicts. -/
lemma onePass_extends (sq : ℝ → ℝ) (tol : ℝ) (D : List ((Nat × Nat) × ℝ))
    (known est : List (Nat × Pt)) :
    ∃ tk te, (onePass sq tol D known est).known = known ++ tk ∧
      (onePass sq tol D known est).est = est ++ te := by
  have aux : ∀ (l : List ((Nat × Nat) × ℝ)) (s : PassSt),
      ∃ tk te, (l.foldl (fun s e => stepEdge sq tol D s e.1.1 e.1.2) s).known
          = s.known ++ tk ∧
        (l.foldl (fun s e => stepEdge sq tol D s e.1.1 e.1.2) s).est
          = s.est ++ te := by
    intro l
    induction l with
    | nil => intro s; exact ⟨[], [], by simp, by simp⟩
    | cons e l ih =>
      intro s
      rw [List.foldl_cons]
      rcases stepEdge_cases sq tol D s e.1.1 e.1.2 with h | h | ⟨p, _, h⟩ <;>
        rw [h]
      · exact ih s
      · obtain ⟨tk, te, hk, he⟩ :=
          ih { s with pend := s.pend ++ [e.1.2] }
        exact ⟨tk, te, hk, he⟩
      · obtain ⟨tk, te, hk, he⟩ :=
          ih { s with known := s.known ++ [(e.1.2, p)],
                      est := s.est ++ [(e.1.2, p)], prog := true }
        refine ⟨(e.1.2, p) :: tk, (e.1.2, p) :: te, ?_, ?_⟩
        · rw [hk]
          simp
        · rw [he]
          simp
  exact aux D ⟨known, est, false, []⟩

/-- One pass preserves `known_positions = anchors ++ estimated`. -/
lemma onePass_frame (sq : ℝ → ℝ) (tol : ℝ) (D : List ((Nat × Nat) × ℝ))
    (K known est : List (Nat × Pt)) (h : known = K ++ est) :
    (onePass sq tol D known est).known = K ++ (onePass sq tol D known est).est := by
  have aux : ∀ (l : List ((Nat × Nat) × ℝ)) (s : PassSt),
      s.known = K ++ s.est →
      (l.foldl (fun s e => stepEdge sq tol D s e.1.1 e.1.2) s).known
        = K ++ (l.foldl (fun s e => stepEdge sq tol D s e.1.1 e.1.2) s).est := by
    intro l
    induction l with
    | nil => intro s hs; exact hs
    | cons e l ih =>
      intro s hs
      rw [List.foldl_cons]
      refine ih _ ?_
      rcases stepEdge_cases sq tol D s e.1.1 e.1.2 with h | h | ⟨p, _, h⟩ <;>
        rw [h]
      · exact hs
      · exact hs
      · show s.known ++ [(e.1.2, p)] = K ++ (s.est ++ [(e.1.2, p)])
        rw [hs, List.append_assoc]
  exact aux D ⟨known, est, false, []⟩ h

lemma afterPasses_succ (sq : ℝ → ℝ) (tol : ℝ) (D : List ((Nat × Nat) × ℝ))
    (K : List (Nat × Pt)) (k : Nat) :
    afterPasses sq tol D K (k + 1)
      = ((onePass sq tol D (afterPasses sq tol D K k).1
            (afterPasses sq tol D K k).2).known,
         (onePass sq tol D (afterPasses sq tol D K k).1
            (afterPasses sq tol D K k).2).est) := by
  unfold afterPasses
  rw [Function.iterate_succ_apply']

/-- The final state of the main loop is the pass body iterated as many
times as passes were executed, so the `afterPasses` iterates are
exactly the intermediate states of the actual run. -/
lemma mainLoopC_eq_iterate (sq : ℝ → ℝ) (tol : ℝ) (D : List ((Nat × Nat) × ℝ))
    (uc maxIt : Nat) :
    ∀ fuel count known est,
      (mainLoopC sq tol D uc maxIt fuel count known est).1
        = (fun p => let s := onePass sq tol D p.1 p.2;
            (s.known, s.est))^[(mainLoopC sq tol D uc maxIt fuel count known est).2]
            (known, est) := by
  intro fuel
  induction fuel with
  | zero => intro count known est; rfl
  | succ fuel ih =>
    intro count known est
    simp only [mainLoopC_succ]
    split_ifs with h1 h2 h3
    · rfl
    · rfl
    · rw [Function.iterate_succ_apply]
      exact ih (count + 1) (onePass sq tol D known est).known
        (onePass sq tol D known est).est
    · rfl

/-- C9: after each completed pass of the main loop, the working
`known_positions` equals the initial anchors plus exactly the nodes of
`estimated_positions` so far, and both dict sizes are non-decreasing
from pass to pass; the run of `locate_other_vehicles` visits exactly
the `afterPasses` iterates (last conjunct). -/
theorem known_eq_anchors_plus_est (sq : ℝ → ℝ) (tol : ℝ)
    (D : List ((Nat × Nat) × ℝ)) (K : List (Nat × Pt)) (k : Nat) :
    ((afterPasses sq tol D K k).1 = K ++ (afterPasses sq tol D K k).2 ∧
    (afterPasses sq tol D K k).2.length
      ≤ (afterPasses sq tol D K (k + 1)).2.length ∧
    (afterPasses sq tol D K k).1.length
      ≤ (afterPasses sq tol D K (k + 1)).1.length) ∧
    (locatePair sq tol K D).1
      = afterPasses sq tol D K (trilatPasses sq tol K D) := by
  refine ⟨?_, mainLoopC_eq_iterate sq tol D _ _ _ 0 K []⟩
  refine ⟨?_, ?_, ?_⟩
  · induction k with
    | zero => simp [afterPasses]
    | succ k ih =>
      rw [afterPasses_succ]
      exact onePass_frame sq tol D K _ _ ih
  · rw [afterPasses_succ]
    obtain ⟨tk, te, hk, he⟩ := onePass_extends sq tol D
      (afterPasses sq tol D K k).1 (afterPasses sq tol D K k).2
    rw [he]
    simp
  · rw [afterPasses_succ]
    obtain ⟨tk, te, hk, he⟩ := onePass_extends sq tol D
      (afterPasses sq tol D K k).1 (afterPasses sq tol D K k).2
    rw [hk]
    simp

/-- C10: the solver writes estimates directly into the mapping the
caller passed (modelled by the `known` component of the state): at
return time the final `known_positions` is exactly the original
entries followed by the entries of the returned
`estimated_positions`, and from pass to pass both dicts are only ever
appended to — no existing entry is modified or removed. -/
theorem caller_map_frame (sq : ℝ → ℝ) (tol : ℝ) (K : List (Nat × Pt))
    (D : List ((Nat × Nat) × ℝ)) :
    locateKnownFinal sq tol K D = K ++ locate sq tol K D ∧
    (∀ k, ∃ newK, (afterPasses sq tol D K (k + 1)).1
        = (afterPasses sq tol D K k).1 ++ newK) ∧
    (∀ k, ∃ newE, (afterPasses sq tol D K (k + 1)).2
        = (afterPasses sq tol D K k).2 ++ newE) := by
  refine ⟨?_, ?_, ?_⟩
  · have h := mainLoopC_inv sq tol D (unknownNodes D K).length (maxIterOf D K)
      (fun known est => known = K ++ est)
      (fun known est h => onePass_frame sq tol D K known est h)
      (maxIterOf D K + 1) 0 K [] (List.append_nil K).symm
    exact h
  · intro k
    rw [afterPasses_succ]
    obtain ⟨tk, te, hk, he⟩ := onePass_extends sq tol D
      (afterPasses sq tol D K k).1 (afterPasses sq tol D K k).2
    exact ⟨tk, hk⟩
  · intro k
    rw [afterPasses_succ]
    obtain ⟨tk, te, hk, he⟩ := onePass_extends sq tol D
      (afterPasses sq tol D K k).1 (afterPasses sq tol D K k).2
    exact ⟨te, he⟩

/-! ### Grid solver helpers -/

lemma gridCount_two : gridCount ⟨1, 2, 1/2⟩ = 2 := by
  unfold gridCount
  rw [show ((⟨1, 2, 1/2⟩ : GridCfg).area_size / (⟨1, 2, 1/2⟩ : GridCfg).grid_size)
    = (((2:ℤ) : ℝ)) from by norm_num, Int.ceil_intCast]
  rfl

lemma gridCount_default : gridCount defaultGridCfg = 100 := by
  unfold gridCount defaultGridCfg
  rw [show ((⟨1, 100, 1/2⟩ : GridCfg).area_size / (⟨1, 100, 1/2⟩ : GridCfg).grid_size)
    = (((100:ℤ) : ℝ)) from by norm_num, Int.ceil_intCast]
  rfl

lemma rmIdx_head (n : Nat) (h : 0 < n) : ∃ rest, rmIdx n = (0, 0) :: rest := by
  unfold rmIdx
  have hm : n * n = (n * n - 1) + 1 :=
    (Nat.sub_add_cancel (Nat.one_le_iff_ne_zero.mpr
      (Nat.pos_iff_ne_zero.mp (Nat.mul_pos h h)))).symm
  rw [hm, List.range_succ_eq_map, List.map_cons]
  exact ⟨List.map (fun k => (k / n, k % n)) (List.map Nat.succ
    (List.range (n * n - 1))), by simp⟩

/-- When the accumulated belief surface of a node is constant, the
first cell `(0, 0)` wins both the maximum and the normalized argmax,
so the node is estimated at the grid origin; `np.max` returns the
constant. -/
lemma nodeEstimate_const (sq : ℝ → ℝ) (pdf : ℝ → ℝ → ℝ → ℝ) (cfg : GridCfg)
    (K : List (Nat × Pt)) (D : List ((Nat × Nat) × ℝ)) (node : Nat)
    (nbrs : List (Nat × Pt × ℝ)) (c : ℝ) (n : Nat) (rest : List (Nat × Nat))
    (hn : bpNeighborsOf K D node = some nbrs)
    (hgc : gridCount cfg = n)
    (hr : rmIdx n = (0, 0) :: rest)
    (hc : ∀ p : Nat × Nat, nodeBelief sq pdf cfg nbrs p.1 p.2 = c) :
    nodeMaxBelief sq pdf cfg K D node = some c ∧
    nodeEstimate sq pdf cfg K D node
      = some (0 * cfg.grid_size, 0 * cfg.grid_size) := by
  have hmax : nodeMaxBelief sq pdf cfg K D node = some c := by
    unfold nodeMaxBelief
    rw [hn, obind_some, hgc, hr]
    unfold maxList
    rw [show argmaxList (fun p => nodeBelief sq pdf cfg nbrs p.1 p.2)
        ((0, 0) :: rest)
      = some (argmaxAux (fun p => nodeBelief sq pdf cfg nbrs p.1 p.2)
          (0, 0) rest) from rfl]
    rw [argmaxAux_not_lt _ rest (0, 0)
      (fun x _ => by rw [hc x, hc (0, 0)]; exact lt_irrefl c)]
    rw [omap_some, hc (0, 0)]
  refine ⟨hmax, ?_⟩
  unfold nodeEstimate
  rw [hn, obind_some, hmax, obind_some, hgc, hr]
  rw [show argmaxList (fun p => nodeBelief sq pdf cfg nbrs p.1 p.2 / c)
      ((0, 0) :: rest)
    = some (argmaxAux (fun p => nodeBelief sq pdf cfg nbrs p.1 p.2 / c)
        (0, 0) rest) from rfl]
  rw [argmaxAux_not_lt _ rest (0, 0)
    (fun x _ => by rw [hc x, hc (0, 0)]; exact lt_irrefl (c / c))]
  rw [omap_some]
  norm_num

lemma bp_go_cons (sq : ℝ → ℝ) (pdf : ℝ → ℝ → ℝ → ℝ) (cfg : GridCfg)
    (K : List (Nat × Pt)) (D : List ((Nat × Nat) × ℝ)) (node : Nat)
    (rest : List Nat) :
    belief_propagation.go sq pdf cfg K D (node :: rest)
      = (nodeEstimate sq pdf cfg K D node).bind (fun p =>
          (belief_propagation.go sq pdf cfg K D rest).map
            (fun l => (node, p) :: l)) := rfl

/-! ### Claim C7 -/

/-- C7: the grid solver does not treat the distance map as symmetric:
with the single pair materialized only as `(1, 2)` (known node first),
the neighbor comprehension looks up `distances[(2, 1)]`, which raises
`KeyError` (modelled as `none`), so `estimate` does not succeed at
all — contradicting the requirement that a one-directional input be
treated like its flipped materialization. -/
theorem bp_one_directional_keyerror :
    belief_propagation Real.sqrt gaussianPdf defaultGridCfg
      [(1, ((0:ℝ), 0))] [((1, 2), (5:ℝ))] = none := rfl

/-! ### Claim C1 -/

/-- C1: the zero-maximum belief case is *not* detected: there is no
guard on `np.max(belief)` and every unknown node is inserted into
`estimated_positions` unconditionally.  The density parameter
`fun _ _ _ => 0` models the float64 underflow of
`scipy.stats.norm.pdf` far from the measured distance (with
`noise_std = 0.5` the density is exactly `0.0` in float64 beyond
`≈ 19·10³` standard deviations, e.g. for `d = 10000` on a small
grid near the origin).  The maximum belief of node 2 is exactly `0`,
yet node 2 is still returned — at the origin cell — instead of being
left unresolved. -/
theorem bp_zero_max_not_guarded :
    nodeMaxBelief Real.sqrt (fun _ _ _ => 0) ⟨1, 2, 1/2⟩ [(1, ((0:ℝ), 0))]
      [((2, 1), 10000)] 2 = some 0 ∧
    belief_propagation Real.sqrt (fun _ _ _ => 0) ⟨1, 2, 1/2⟩ [(1, ((0:ℝ), 0))]
      [((2, 1), 10000)] = some [(2, ((0:ℝ), (0:ℝ)))] := by
  have h := nodeEstimate_const Real.sqrt (fun _ _ _ => 0) ⟨1, 2, 1/2⟩
    [(1, ((0:ℝ), 0))] [((2, 1), 10000)] 2 [(1, ((0:ℝ), 0), 10000)] 0 2
    [(0, 1), (1, 0), (1, 1)] rfl gridCount_two rfl
    (fun p => by show (1:ℝ) * 0 = 0; norm_num)
  refine ⟨h.1, ?_⟩
  show belief_propagation.go Real.sqrt (fun _ _ _ => 0) ⟨1, 2, 1/2⟩
    [(1, ((0:ℝ), 0))] [((2, 1), 10000)] [2] = some [(2, ((0:ℝ), (0:ℝ)))]
  rw [bp_go_cons, h.2, obind_some]
  show some ((2, ((0:ℝ) * (1:ℝ), (0:ℝ) * (1:ℝ))) :: []) = _
  norm_num

/-! ### Claim C6 -/

/-- C6 counterexample: an unknown node with fewer than 3 known
neighbors is *not* left unresolved.  With no anchors at all, nodes 1
and 2 have zero known neighbors (the neighbor list of node 1 is
empty), the belief surface stays uniform, and both nodes are still
estimated — at the origin cell `(0, 0)` — so the output does not
contain only nodes the strategy could meaningfully resolve. -/
theorem bp_low_degree_still_estimated_cex :
    bpNeighborsOf [] [((1, 2), (5:ℝ))] 1 = some [] ∧
    belief_propagation Real.sqrt gaussianPdf defaultGridCfg []
      [((1, 2), (5:ℝ))] = some [(1, ((0:ℝ), (0:ℝ))), (2, ((0:ℝ), (0:ℝ)))] := by
  obtain ⟨rest, hr⟩ := rmIdx_head 100 (by norm_num)
  have h1 := nodeEstimate_const Real.sqrt gaussianPdf defaultGridCfg []
    [((1, 2), (5:ℝ))] 1 [] 1 100 rest rfl gridCount_default hr
    (fun p => rfl)
  have h2 := nodeEstimate_const Real.sqrt gaussianPdf defaultGridCfg []
    [((1, 2), (5:ℝ))] 2 [] 1 100 rest rfl gridCount_default hr
    (fun p => rfl)
  refine ⟨rfl, ?_⟩
  show belief_propagation.go Real.sqrt gaussianPdf defaultGridCfg []
    [((1, 2), (5:ℝ))] [1, 2] = _
  rw [bp_go_cons, h1.2, obind_some, bp_go_cons, h2.2, obind_some]
  show some ((1, ((0:ℝ) * (1:ℝ), (0:ℝ) * (1:ℝ)))
    :: (2, ((0:ℝ) * (1:ℝ), (0:ℝ) * (1:ℝ))) :: []) = _
  norm_num

/-- C6 amended: the grid solver never checks neighbor counts — when
`estimate` returns at all (no `KeyError`), its output contains exactly
*all* unknown nodes, including those with fewer than 3 (even zero)
known neighbors; no exception is raised on low-degree nodes whose
lookups succeed. -/
theorem bp_domain_eq_unknown (sq : ℝ → ℝ) (pdf : ℝ → ℝ → ℝ → ℝ) (cfg : GridCfg)
    (K : List (Nat × Pt)) (D : List ((Nat × Nat) × ℝ))
    (res : List (Nat × Pt))
    (h : belief_propagation sq pdf cfg K D = some res) :
    res.map (fun q => q.1) = unknownNodes D K := by
  have aux : ∀ (l : List Nat) (r : List (Nat × Pt)),
      belief_propagation.go sq pdf cfg K D l = some r →
      r.map (fun q => q.1) = l := by
    intro l
    induction l with
    | nil =>
      intro r hr
      rw [show belief_propagation.go sq pdf cfg K D [] = some [] from rfl] at hr
      cases hr
      rfl
    | cons node rest ih =>
      intro r hr
      rw [bp_go_cons] at hr
      cases he : nodeEstimate sq pdf cfg K D node with
      | none =>
        rw [he] at hr
        cases hr
      | some p =>
        rw [he, obind_some] at hr
        cases hg : belief_propagation.go sq pdf cfg K D rest with
        | none =>
          rw [hg] at hr
          cases hr
        | some l2 =>
          rw [hg, omap_some] at hr
          cases hr
          rw [List.map_cons, ih l2 hg]
  exact aux (unknownNodes D K) res h

/-- Witness for `bp_domain_eq_unknown` on a tiny 2×2 grid with a
constant density: the single unknown node 7 is estimated and the
output domain is exactly the unknown-node list `[7]`. -/
theorem bp_domain_eq_unknown_witness :
    belief_propagation Real.sqrt (fun _ _ _ => 1) ⟨1, 2, 1/2⟩
      [(9, ((0:ℝ), 0))] [((7, 9), (3:ℝ))] = some [(7, ((0:ℝ), (0:ℝ)))] ∧
    ([(7, ((0:ℝ), (0:ℝ)))] : List (Nat × Pt)).map (fun q => q.1)
      = unknownNodes [((7, 9), (3:ℝ))] [(9, ((0:ℝ), 0))] := by
  have h := nodeEstimate_const Real.sqrt (fun _ _ _ => 1) ⟨1, 2, 1/2⟩
    [(9, ((0:ℝ), 0))] [((7, 9), (3:ℝ))] 7 [(9, ((0:ℝ), 0), 3)] (1 * 1) 2
    [(0, 1), (1, 0), (1, 1)] rfl gridCount_two rfl (fun p => rfl)
  have heval : belief_propagation Real.sqrt (fun _ _ _ => 1) ⟨1, 2, 1/2⟩
      [(9, ((0:ℝ), 0))] [((7, 9), (3:ℝ))] = some [(7, ((0:ℝ), (0:ℝ)))] := by
    show belief_propagation.go Real.sqrt (fun _ _ _ => 1) ⟨1, 2, 1/2⟩
      [(9, ((0:ℝ), 0))] [((7, 9), (3:ℝ))] [7] = _
    rw [bp_go_cons, h.2, obind_some]
    show some ((7, ((0:ℝ) * (1:ℝ), (0:ℝ) * (1:ℝ))) :: []) = _
    norm_num
  exact ⟨heval,
    bp_domain_eq_unknown Real.sqrt (fun _ _ _ => 1) ⟨1, 2, 1/2⟩
      [(9, ((0:ℝ), 0))] [((7, 9), (3:ℝ))] [(7, ((0:ℝ), (0:ℝ)))] heval⟩

end

end SiloNet
